import Mathlib

/-!
Verification development for the segment-loading core of the dynamic loader
(`bionic/linker/linker_phdr.cpp`): a shallow embedding of the ELF
program-header computations, address-space reservation, protection control,
GNU-relro sharing, the loaded-header locator, and the seccomp-bpf
instruction-pointer filter installed by `init_seccomp`.

Machine integers are modelled as `Nat`; a 32-bit truncation from the source
(`(uint32_t)` casts, BPF 32-bit loads) is written `% 2^32` explicitly.
Kernel interactions (mmap, mprotect, fragment mapping) are modelled by
explicit oracles or event lists, so the mapping/protection functions return
the sequence of requests they would issue.
-/

namespace LinkerPhdr

/-! ## Basic constants (from the source and the platform headers it uses) -/

def PAGE_SIZE : Nat := 4096

/-- PAGE_START(x) = x & ~(PAGE_SIZE-1): round down to a page boundary. -/
def PAGE_START (x : Nat) : Nat := x / PAGE_SIZE * PAGE_SIZE

/-- PAGE_END(x) = PAGE_START(x + PAGE_SIZE - 1): round up to a page boundary. -/
def PAGE_END (x : Nat) : Nat := PAGE_START (x + (PAGE_SIZE - 1))

def PT_LOAD : Nat := 1
def PT_DYNAMIC : Nat := 2
def PT_PHDR : Nat := 6
def PT_GNU_RELRO : Nat := 0x6474e552

def PF_X : Nat := 1
def PF_W : Nat := 2
def PF_R : Nat := 4

def PROT_READ : Nat := 1
def PROT_WRITE : Nat := 2
def PROT_EXEC : Nat := 4

def SHT_STRTAB : Nat := 3
def SHT_DYNAMIC : Nat := 6

/-- Value of `__AUDIT_ARCH_64BIT | __AUDIT_ARCH_LE | EM_AARCH64` (0x80000000|0x40000000|183). -/
def AUDIT_ARCH_AARCH64 : Nat := 0xC00000B7

/-- Value of `__AUDIT_ARCH_LE | EM_ARM` (0x40000000|40). -/
def AUDIT_ARCH_ARM : Nat := 0x40000028

/-! ## Seccomp BPF embedding

The filter built by `init_seccomp` is a classic-BPF program: a flat array of
`sock_filter` instructions using only `BPF_LD|BPF_W|BPF_ABS` (load a 32-bit
word of `struct seccomp_data` into the accumulator), conditional forward
jumps `BPF_JEQ`/`BPF_JGT`/`BPF_JGE` against the constant `k`, and
`BPF_RET|BPF_K` with `SECCOMP_RET_ALLOW` or `SECCOMP_RET_TRAP`.
We embed exactly these instruction forms and give them their kernel
semantics: a jump with fields `(k, jt, jf)` transfers to `pc + 1 + jt` when
the comparison holds and to `pc + 1 + jf` otherwise. -/

inductive SRet where
  | allow
  | trap
  deriving DecidableEq, Repr

inductive BpfInstr where
  | ld (off : Nat)
  | jeq (k jt jf : Nat)
  | jgt (k jt jf : Nat)
  | jge (k jt jf : Nat)
  | ret (r : SRet)
  deriving DecidableEq, Repr

/-- The fields of `struct seccomp_data` read by the filter:
`nr` at offset 0, `arch` at offset 4, `instruction_pointer` (64-bit,
little-endian) at offset 8 (low word) and 12 (high word). -/
structure SeccompData where
  nr : Nat
  arch : Nat
  instruction_pointer : Nat
  deriving DecidableEq, Repr

/-- Semantics of `BPF_LD|BPF_W|BPF_ABS off`: the 32-bit little-endian word of the data at `off`. -/
def loadWord (d : SeccompData) (off : Nat) : Nat :=
  if off = 0 then d.nr % 2 ^ 32
  else if off = 4 then d.arch % 2 ^ 32
  else if off = 8 then d.instruction_pointer % 2 ^ 32
  else if off = 12 then d.instruction_pointer / 2 ^ 32 % 2 ^ 32
  else 0

/-- Fuel-indexed BPF evaluator: program counter `pc`, accumulator `acc`.
Returns `none` when the program runs off its end or fuel is exhausted
(never happens for the filters below, which only jump forward). -/
def bpfRun (prog : List BpfInstr) (d : SeccompData) :
    Nat → Nat → Nat → Option SRet
  | 0, _, _ => none
  | fuel + 1, pc, acc =>
    match prog[pc]? with
    | none => none
    | some (.ld off) => bpfRun prog d fuel (pc + 1) (loadWord d off)
    | some (.jeq k jt jf) =>
        bpfRun prog d fuel (pc + 1 + (if acc = k then jt else jf)) acc
    | some (.jgt k jt jf) =>
        bpfRun prog d fuel (pc + 1 + (if acc > k then jt else jf)) acc
    | some (.jge k jt jf) =>
        bpfRun prog d fuel (pc + 1 + (if acc ≥ k then jt else jf)) acc
    | some (.ret r) => some r

/-- Evaluate a filter on one syscall: the kernel runs the program from
pc 0 with a zero accumulator.  `prog.length` steps of fuel always suffice
for a forward-jumping program. -/
def seccompEval (prog : List BpfInstr) (d : SeccompData) : Option SRet :=
  bpfRun prog d (prog.length + 1) 0 0

/-! ## Syscall numbers

ARM EABI numbers for the 32-bit filter, AArch64 (asm-generic) numbers for
the 64-bit filter, exactly the `__NR_*` constants named in `init_seccomp`. -/

def NRarm_openat : Nat := 322
def NRarm_readlinkat : Nat := 332
def NRarm_faccessat : Nat := 334
def NRarm_unlinkat : Nat := 328
def NRarm_connect : Nat := 283
def NRarm_execve : Nat := 11
def NRarm_inotify_add_watch : Nat := 317
def NRarm_mkdirat : Nat := 323
def NRarm_getdents64 : Nat := 217
def NRarm_ptrace : Nat := 26
def NRarm_clock_settime : Nat := 262
def NRarm_clock_gettime : Nat := 263
def NRarm_gettimeofday : Nat := 78
def NRarm_settimeofday : Nat := 79
def NRarm_open : Nat := 5
def NRarm_readlink : Nat := 85
def NRarm_access : Nat := 33
def NRarm_getuid32 : Nat := 199
def NRarm_getgid32 : Nat := 200
def NRarm_fstat : Nat := 108
def NRarm_fstat64 : Nat := 197
def NRarm_statfs64 : Nat := 266
def NRarm_uname : Nat := 122
def NRarm_ioprio_set : Nat := 314
def NRarm_sysinfo : Nat := 116
def NRarm_socket : Nat := 281
def NRarm_ioctl : Nat := 54
def NRarm_prctl : Nat := 172
def NRarm_geteuid32 : Nat := 201
def NRarm_getegid32 : Nat := 202
def NRarm_getresuid32 : Nat := 209
def NRarm_getresgid32 : Nat := 210
def NRarm_fstatat64 : Nat := 327

def NRa64_openat : Nat := 56
def NRa64_readlinkat : Nat := 78
def NRa64_faccessat : Nat := 48
def NRa64_unlinkat : Nat := 35
def NRa64_connect : Nat := 203
def NRa64_execve : Nat := 221
def NRa64_inotify_add_watch : Nat := 27
def NRa64_mkdirat : Nat := 34
def NRa64_getdents64 : Nat := 61
def NRa64_ptrace : Nat := 117
def NRa64_clock_settime : Nat := 112
def NRa64_clock_gettime : Nat := 113
def NRa64_gettimeofday : Nat := 169
def NRa64_settimeofday : Nat := 170
def NRa64_newfstatat : Nat := 79
def NRa64_getuid : Nat := 174
def NRa64_getgid : Nat := 176
def NRa64_geteuid : Nat := 175
def NRa64_getegid : Nat := 177
def NRa64_getresuid : Nat := 148
def NRa64_getresgid : Nat := 150

/-- Body of the per-syscall block of `init_seccomp`: for each denylisted
number, a `BPF_JUMP(JEQ, n, 0, 1)` followed by
`BPF_STMT(RET, SECCOMP_RET_TRAP)`. -/
def chainBody (ns : List Nat) : List BpfInstr :=
  ns.flatMap fun n => [.jeq n 0 1, .ret .trap]

/-- The per-syscall block of `init_seccomp`: one `BPF_STMT(LD, nr)` then
the jump/trap pairs of `chainBody`. -/
def denyChain (ns : List Nat) : List BpfInstr :=
  .ld 0 :: chainBody ns

/-- Denylist order of the 32-bit (`!__LP64__`) build of `init_seccomp`:
the common block then the 32-bit-only block (with its duplicated
`getuid32`/`getgid32`/`inotify_add_watch` entries kept as in the source). -/
def denylist32 : List Nat :=
  [NRarm_openat, NRarm_readlinkat, NRarm_faccessat, NRarm_unlinkat,
   NRarm_connect, NRarm_execve, NRarm_inotify_add_watch, NRarm_mkdirat,
   NRarm_getdents64, NRarm_ptrace, NRarm_clock_settime, NRarm_clock_gettime,
   NRarm_gettimeofday, NRarm_settimeofday,
   NRarm_open, NRarm_readlink, NRarm_access, NRarm_getuid32, NRarm_getgid32,
   NRarm_fstat, NRarm_fstat64, NRarm_statfs64, NRarm_uname, NRarm_ioprio_set,
   NRarm_sysinfo, NRarm_socket, NRarm_ioctl, NRarm_prctl,
   NRarm_getuid32, NRarm_getgid32, NRarm_geteuid32, NRarm_getegid32,
   NRarm_getresuid32, NRarm_getresgid32, NRarm_inotify_add_watch,
   NRarm_fstatat64]

/-- Denylist order of the 64-bit (`__LP64__`) build of `init_seccomp`. -/
def denylist64 : List Nat :=
  [NRa64_openat, NRa64_readlinkat, NRa64_faccessat, NRa64_unlinkat,
   NRa64_connect, NRa64_execve, NRa64_inotify_add_watch, NRa64_mkdirat,
   NRa64_getdents64, NRa64_ptrace, NRa64_clock_settime, NRa64_clock_gettime,
   NRa64_gettimeofday, NRa64_settimeofday,
   NRa64_newfstatat, NRa64_getuid, NRa64_getgid, NRa64_geteuid,
   NRa64_getegid, NRa64_getresuid, NRa64_getresgid]

/-- The 32-bit (`!__LP64__`) filter of `init_seccomp`, parameterized by the
protected window bounds read from the registry at install time
(`PRELINKER_ADDR`, `LINKER_MAPS_LAST_ADDR`). Instruction by instruction:
arch check, low-address guard `0x400000`, the window range check, then the
denylist chain and a final `RET ALLOW`. -/
def head32 (wb we : Nat) : List BpfInstr :=
  [.ld 4,
   .jeq AUDIT_ARCH_ARM 1 0,
   .ret .allow,
   .ld 8,
   .jge 0x400000 1 0,
   .ret .allow,
   .ld 8,
   .jge wb 0 2,
   .jge we 1 0,
   .ret .allow]

def filter32 (wb we : Nat) : List BpfInstr :=
  head32 wb we ++ denyChain denylist32 ++ [.ret .allow]

/-- The 64-bit (`__LP64__`) filter of `init_seccomp`: arch check, the
high-word-zero test feeding the low-address guard `0x500000`, the split
high/low 32-bit window comparison (`(uint32_t)(x >> 32)` is written
`x / 2^32 % 2^32`, `(uint32_t)(x & 0xFFFFFFFF)` is written `x % 2^32`),
then the denylist chain and a final `RET ALLOW`. -/
def head64 (wb we : Nat) : List BpfInstr :=
  [.ld 4,
   .jeq AUDIT_ARCH_AARCH64 1 0,
   .ret .allow,
   .ld 12,
   .jeq 0 0 3,
   .ld 8,
   .jge 0x500000 1 0,
   .ret .allow,
   .ld 12,
   .jgt (wb / 2 ^ 32 % 2 ^ 32) 3 0,
   .jge (wb / 2 ^ 32 % 2 ^ 32) 0 8,
   .ld 8,
   .jge (wb % 2 ^ 32) 0 6,
   .ld 12,
   .jgt (we / 2 ^ 32 % 2 ^ 32) 4 0,
   .jge (we / 2 ^ 32 % 2 ^ 32) 0 3,
   .ld 8,
   .jge (we % 2 ^ 32) 1 0,
   .ret .allow]

def filter64 (wb we : Nat) : List BpfInstr :=
  head64 wb we ++ denyChain denylist64 ++ [.ret .allow]

/-- The split high/low window comparison of the 64-bit filter (instructions
8 through 18 of `head64`), written as a function of the window bounds and
the instruction pointer: `true` means the pointer reaches the
`RET ALLOW` at instruction 18 (classified in-window), `false` means it
falls through to the denylist block.  Each branch transcribes one jump of
the source block. -/
def splitRangeCk (wb we ip : Nat) : Bool :=
  let hi := ip / 2 ^ 32 % 2 ^ 32
  let lo := ip % 2 ^ 32
  let endCk : Bool :=
    if hi > we / 2 ^ 32 % 2 ^ 32 then false
    else if hi ≥ we / 2 ^ 32 % 2 ^ 32 then
      (if lo ≥ we % 2 ^ 32 then false else true)
    else false
  if hi > wb / 2 ^ 32 % 2 ^ 32 then endCk
  else if hi ≥ wb / 2 ^ 32 % 2 ^ 32 then
    (if lo ≥ wb % 2 ^ 32 then endCk else false)
  else false

/-! ## Program headers and load-extent computation -/

structure Phdr where
  p_type : Nat
  p_offset : Nat
  p_vaddr : Nat
  p_filesz : Nat
  p_memsz : Nat
  p_flags : Nat
  deriving DecidableEq, Repr

def UINTPTR_MAX : Nat := 2 ^ 64 - 1

/-- The accumulator loop of `phdr_table_get_load_size`: carries
`min_vaddr`, `max_vaddr` and the `found_pt_load` flag over the table. -/
def loadSizeLoop : List Phdr → Nat → Nat → Bool → Nat × Nat × Bool
  | [], mn, mx, f => (mn, mx, f)
  | p :: rest, mn, mx, f =>
    if p.p_type ≠ PT_LOAD then loadSizeLoop rest mn mx f
    else
      loadSizeLoop rest
        (if p.p_vaddr < mn then p.p_vaddr else mn)
        (if p.p_vaddr + p.p_memsz > mx then p.p_vaddr + p.p_memsz else mx)
        true

/-- Function `phdr_table_get_load_size`: returns `(size, out_min_vaddr, out_max_vaddr)`.
`min_vaddr` starts at `UINTPTR_MAX`, `max_vaddr` at 0; if no `PT_LOAD` entry
was found `min_vaddr` is reset to 0; both are then page-rounded. -/
def phdr_table_get_load_size (tbl : List Phdr) : Nat × Nat × Nat :=
  let r := loadSizeLoop tbl UINTPTR_MAX 0 false
  let mn := PAGE_START (if r.2.2 then r.1 else 0)
  let mx := PAGE_END r.2.1
  (mx - mn, mn, mx)

/-! ## Address-space reservation (`ElfReader::ReserveAddressSpace`)

Kernel `mmap` is modelled by an oracle `kmm : Nat → Nat → Option Nat`
(requested address and length to the address actually returned, `none` for
`MAP_FAILED`).  The fixed-layout registry (`struct linker_maps_addr_t` at
`LINKER_MAPS_ADDR`) is threaded explicitly.  The events emitted record, in
order, the reservation request and the `init_seccomp` installation. -/

def ANDROID_DLEXT_RESERVED_ADDRESS : Nat := 1
def ANDROID_DLEXT_RESERVED_ADDRESS_HINT : Nat := 2

structure DlExtInfo where
  flags : Nat
  reserved_addr : Nat
  reserved_size : Nat
  deriving DecidableEq, Repr

/-- The `struct linker_maps_addr_t` record, the fixed-address SharedLayoutRegistry. -/
structure LayoutRegistry where
  prelinker_addr : Nat
  prelinker_size : Nat
  host_linker_addr : Nat
  host_linker_size : Nat
  guest_linker_addr : Nat
  guest_linker_size : Nat
  guest_libc_addr : Nat
  guest_libc_size : Nat
  host_libs_addr : Nat
  host_libs_size : Nat
  linker_maps_last_addr : Nat
  deriving DecidableEq, Repr

inductive LinkerError where
  | noLoadableSegments
  | addressSpaceError (diff : Int) (needed : Nat)
  | mmapFailed
  deriving DecidableEq, Repr

inductive Event where
  | reserveMmap (addr len : Nat)
  | installSeccomp
  | mapSegment (i : Nat) (addr : Int) (len : Nat)
  | zeroFillMap (i : Nat) (addr : Int) (len : Nat)
  deriving DecidableEq, Repr

structure ReserveOut where
  load_start : Nat
  load_size : Nat
  load_bias : Int
  registry : LayoutRegistry
  seccomp_installed : Bool
  events : List Event
  deriving Repr

/-- Prefix test used by `strstrHit` below. -/
def listStartsWith : List Char → List Char → Bool
  | [], _ => true
  | _ :: _, [] => false
  | a :: as, b :: bs => a == b && listStartsWith as bs

/-- Test `strstr(hay, pat) != 0`: `pat` occurs contiguously inside `hay`. -/
def strstrHit (pat : List Char) : List Char → Bool
  | [] => listStartsWith pat []
  | c :: rest => listStartsWith pat (c :: rest) || strstrHit pat rest

/-- Function `ElfReader::ReserveAddressSpace`.  Mirrors the source: compute the load
extent; read `extinfo`'s reservation flags; an undersized non-hint
reservation is an `AddressSpaceError` carrying the `DL_ERR` arguments
`(reserved_size - load_size, load_size)`; otherwise reserve anonymous
memory, special-casing a null requested address for an image whose name
contains `"libc.so"`: such an image is placed at the registry's
`GUEST_LIBC_ADDR`, the registry's guest-libc fields are written back and
`init_seccomp` runs before returning. -/
def ElfReader.ReserveAddressSpace (kmm : Nat → Nat → Option Nat)
    (name : List Char) (extinfo : Option DlExtInfo) (tbl : List Phdr)
    (reg : LayoutRegistry) : Except LinkerError ReserveOut :=
  let ls := phdr_table_get_load_size tbl
  let load_size := ls.1
  let min_vaddr := ls.2.1
  if load_size = 0 then .error .noLoadableSegments
  else
    let addr := min_vaddr
    let reserved_size : Nat :=
      match extinfo with
      | some e =>
        if e.flags &&& ANDROID_DLEXT_RESERVED_ADDRESS ≠ 0 then e.reserved_size
        else if e.flags &&& ANDROID_DLEXT_RESERVED_ADDRESS_HINT ≠ 0 then
          e.reserved_size
        else 0
      | none => 0
    let reserved_hint : Bool :=
      match extinfo with
      | some e => e.flags &&& ANDROID_DLEXT_RESERVED_ADDRESS = 0
      | none => true
    if load_size > reserved_size then
      if reserved_hint = false then
        .error (.addressSpaceError ((reserved_size : Int) - (load_size : Int))
          load_size)
      else
        let isGuestLibc : Bool := addr = 0 && strstrHit "libc.so".toList name
        let map_addr := if isGuestLibc then reg.guest_libc_addr else addr
        match kmm map_addr load_size with
        | none => .error .mmapFailed
        | some start =>
          .ok
            { load_start := start
              load_size := load_size
              load_bias := (start : Int) - (addr : Int)
              registry :=
                if isGuestLibc then
                  { reg with guest_libc_addr := map_addr,
                             guest_libc_size := load_size }
                else reg
              seccomp_installed := isGuestLibc
              events :=
                .reserveMmap map_addr load_size ::
                  (if isGuestLibc then [.installSeccomp] else []) }
    else
      -- here `reserved_size ≥ load_size > 0`, so `extinfo` is non-null
      .ok
        { load_start := (extinfo.map (·.reserved_addr)).getD 0
          load_size := load_size
          load_bias := ((extinfo.map (·.reserved_addr)).getD 0 : Int) -
            (addr : Int)
          registry := reg
          seccomp_installed := false
          events := [] }

/-- The mapping requests issued by `ElfReader::LoadSegments`: for each
`PT_LOAD` entry, a file-backed `MAP_FIXED` mapping of the page-aligned
file range when it is non-empty, then an anonymous zero mapping for the
pages between the file end and the memory end. -/
def ElfReader.LoadSegmentsEvents (tbl : List Phdr) (bias : Int) :
    List Event :=
  (List.range tbl.length).flatMap fun i =>
    match tbl[i]? with
    | none => []
    | some p =>
      if p.p_type ≠ PT_LOAD then []
      else
        let seg_start : Int := (p.p_vaddr : Int) + bias
        let seg_end : Int := seg_start + (p.p_memsz : Int)
        let seg_page_start : Int := seg_start - seg_start % (PAGE_SIZE : Int)
        let seg_page_end : Int :=
          (seg_end + (PAGE_SIZE - 1 : Int)) -
            (seg_end + (PAGE_SIZE - 1 : Int)) % (PAGE_SIZE : Int)
        let seg_file_end : Int := seg_start + (p.p_filesz : Int)
        let file_start := p.p_offset
        let file_end := file_start + p.p_filesz
        let file_page_start := PAGE_START file_start
        let file_length := file_end - file_page_start
        let seg_file_end2 : Int :=
          (seg_file_end + (PAGE_SIZE - 1 : Int)) -
            (seg_file_end + (PAGE_SIZE - 1 : Int)) % (PAGE_SIZE : Int)
        (if file_length ≠ 0 then [.mapSegment i seg_page_start file_length]
         else []) ++
        (if seg_page_end > seg_file_end2 then
          [.zeroFillMap i seg_file_end2 (seg_page_end - seg_file_end2).toNat]
         else [])

/-- The reservation-then-mapping prefix of `ElfReader::Load`
(`ReadElfHeader && VerifyElfHeader && ReadProgramHeader &&
ReserveAddressSpace && LoadSegments && FindPhdr`): the event trace of a
successful load is the reservation's events followed by the segment
mapping's events. -/
def ElfReader.LoadTrace (kmm : Nat → Nat → Option Nat) (name : List Char)
    (extinfo : Option DlExtInfo) (tbl : List Phdr) (reg : LayoutRegistry) :
    Except LinkerError (ReserveOut × List Event) :=
  match ElfReader.ReserveAddressSpace kmm name extinfo tbl reg with
  | .error e => .error e
  | .ok r => .ok (r, r.events ++ ElfReader.LoadSegmentsEvents tbl r.load_bias)

/-! ## Protection controller (`_phdr_table_set_load_prot` and wrappers)

`mprotect` requests are modelled as the list of `(start, length, prot)`
triples the loop would issue, in order. -/

/-- Macro `PFLAGS_TO_PROT(x)`: translate ELF segment flags to protection bits. -/
def PFLAGS_TO_PROT (x : Nat) : Nat :=
  (if x &&& PF_X ≠ 0 then PROT_EXEC else 0) |||
  (if x &&& PF_R ≠ 0 then PROT_READ else 0) |||
  (if x &&& PF_W ≠ 0 then PROT_WRITE else 0)

/-- Function `_phdr_table_set_load_prot`: skip entries that are not `PT_LOAD` or are
writable; for the rest request the covering page range at the segment's
protection with `extra_prot_flags` OR'd in. -/
def phdr_table_set_load_prot : List Phdr → Nat → Nat →
    List (Nat × Nat × Nat)
  | [], _, _ => []
  | p :: rest, bias, extra =>
    if p.p_type ≠ PT_LOAD ∨ p.p_flags &&& PF_W ≠ 0 then
      phdr_table_set_load_prot rest bias extra
    else
      let seg_page_start := PAGE_START p.p_vaddr + bias
      let seg_page_end := PAGE_END (p.p_vaddr + p.p_memsz) + bias
      (seg_page_start, seg_page_end - seg_page_start,
        PFLAGS_TO_PROT p.p_flags ||| extra) ::
        phdr_table_set_load_prot rest bias extra

/-- Function `phdr_table_protect_segments`: restore original protections. -/
def phdr_table_protect_segments (tbl : List Phdr) (bias : Nat) :
    List (Nat × Nat × Nat) :=
  phdr_table_set_load_prot tbl bias 0

/-- Function `phdr_table_unprotect_segments`: add `PROT_WRITE`. -/
def phdr_table_unprotect_segments (tbl : List Phdr) (bias : Nat) :
    List (Nat × Nat × Nat) :=
  phdr_table_set_load_prot tbl bias PROT_WRITE

/-! ## GNU relro sharing (`phdr_table_map_gnu_relro`)

Live memory and the serialized file are modelled at page granularity:
`memPage a` is (a token for) the PAGE_SIZE bytes at byte address `a`,
`filePage o` the page at byte offset `o` of the file; `memcmp(...) == 0`
becomes token equality.  All offsets the source's scan touches are
multiples of `PAGE_SIZE` (it starts at 0 and advances by `PAGE_SIZE`), so
the two inner `while` loops and the outer scan are written in units of
pages: an advance of one page stands for the source's
`match_offset += PAGE_SIZE`. -/

/-- First inner `while`: skip dissimilar pages, in page units. -/
def skipMismatch (peq : Nat → Bool) (off size : Nat) : Nat :=
  if off < size ∧ peq off = false then skipMismatch peq (off + 1) size
  else off
  termination_by size - off

/-- Second inner `while`: advance through similar pages, in page units. -/
def countMatch (peq : Nat → Bool) (off size : Nat) : Nat :=
  if off < size ∧ peq off = true then countMatch peq (off + 1) size
  else off
  termination_by size - off

theorem le_skipMismatch (peq : Nat → Bool) (off size : Nat) :
    off ≤ skipMismatch peq off size := by
  rw [skipMismatch]
  split
  · exact le_trans (Nat.le_succ off) (le_skipMismatch peq (off + 1) size)
  · exact le_refl off
  termination_by size - off

theorem le_countMatch (peq : Nat → Bool) (off size : Nat) :
    off ≤ countMatch peq off size := by
  rw [countMatch]
  split
  · exact le_trans (Nat.le_succ off) (le_countMatch peq (off + 1) size)
  · exact le_refl off
  termination_by size - off

theorem lt_countMatch_skipMismatch (peq : Nat → Bool) (off size : Nat)
    (h : off < size) :
    off < countMatch peq (skipMismatch peq off size) size := by
  rw [skipMismatch]
  split
  · next hcond =>
    exact Nat.lt_of_lt_of_le (Nat.lt_succ_self off)
      (le_trans (le_skipMismatch peq (off + 1) size)
        (le_countMatch peq _ size))
  · next hcond =>
    rw [countMatch]
    have hpeq : peq off = true := by
      rcases Bool.eq_false_or_eq_true (peq off) with ht | hf
      · exact ht
      · exact absurd ⟨h, hf⟩ hcond
    simp only [h, hpeq, and_self, if_true]
    exact Nat.lt_of_lt_of_le (Nat.lt_succ_self off)
      (le_countMatch peq (off + 1) size)

/-- The outer scan of one relro region, in page units: returns the list of
`(start, length)` runs of similar pages that get remapped, in order. -/
def scanRegion (peq : Nat → Bool) (off size : Nat) : List (Nat × Nat) :=
  if h : off < size then
    let m := skipMismatch peq off size
    let e := countMatch peq m size
    (if m < e then [(m, e - m)] else []) ++ scanRegion peq e size
  else []
  termination_by size - off
  decreasing_by
    exact Nat.sub_lt_sub_left h (lt_countMatch_skipMismatch peq off size h)

/-- The relro regions of a header table with their page-aligned live
address range, as `(seg_page_start, size_in_bytes)`, in table order. -/
def relroRegions (tbl : List Phdr) (bias : Nat) : List (Nat × Nat) :=
  tbl.filterMap fun p =>
    if p.p_type = PT_GNU_RELRO then
      some (PAGE_START p.p_vaddr + bias,
        PAGE_END (p.p_vaddr + p.p_memsz) + bias -
          (PAGE_START p.p_vaddr + bias))
    else none

/-- The per-region loop of `phdr_table_map_gnu_relro`, carrying the running
file offset `fo`; returns the `mmap` replacement requests as
`(mem_addr, length, mmap_file_offset)` triples.  A region larger than the
rest of the file breaks out of the loop (no further region is processed).
As in the source, the `mmap` file-offset argument is the region-relative
`match_offset`, not `file_offset + match_offset`. -/
def mapRelroLoop (memPage filePage : Nat → Nat) : Nat → List (Nat × Nat) →
    Nat → List (Nat × Nat × Nat)
  | _, [], _ => []
  | fileSize, (mstart, size) :: rest, fo =>
    if fileSize - fo < size then []
    else
      (scanRegion
        (fun k => memPage (mstart + PAGE_SIZE * k) ==
          filePage (fo + PAGE_SIZE * k)) 0 (size / PAGE_SIZE)).map
        (fun r => (mstart + PAGE_SIZE * r.1, PAGE_SIZE * r.2,
          PAGE_SIZE * r.1)) ++
      mapRelroLoop memPage filePage fileSize rest (fo + size)

/-- Function `phdr_table_map_gnu_relro`: run the per-region loop over the relro
regions starting at file offset 0; the return code is 0 (the modelled
kernel requests succeed; a short file is a `break`, not an error). -/
def phdr_table_map_gnu_relro (memPage filePage : Nat → Nat)
    (tbl : List Phdr) (bias : Nat) (fileSize : Nat) :
    List (Nat × Nat × Nat) × Int :=
  (mapRelroLoop memPage filePage fileSize (relroRegions tbl bias) 0, 0)

/-- Statement helper for the relro scan: page `k` lies inside one of the
`(start, length)` runs (in page units). -/
def coveredRun (runs : List (Nat × Nat)) (k : Nat) : Bool :=
  runs.any fun r => decide (r.1 ≤ k) && decide (k < r.1 + r.2)

/-! ## Loaded-header locator (`ElfReader::FindPhdr`, `ElfReader::CheckPhdr`) -/

/-- Size `sizeof(ElfW(Phdr))` in the 64-bit build (`Elf64_Phdr`). -/
def sizeofPhdr : Nat := 56

/-- Function `ElfReader::CheckPhdr`: the candidate table address plus the full table
byte length must lie within the file-backed extent of some `PT_LOAD`
segment. -/
def ElfReader.CheckPhdr (tbl : List Phdr) (bias : Nat) (loaded : Nat) :
    Bool :=
  let loaded_end := loaded + tbl.length * sizeofPhdr
  tbl.any fun p =>
    p.p_type == PT_LOAD &&
    (p.p_vaddr + bias ≤ loaded && loaded_end ≤ p.p_filesz + (p.p_vaddr + bias))

/-- Function `ElfReader::FindPhdr`.  Here `phoffAt a` models reading field `e_phoff` of
the in-memory ELF header located at address `a`.  A `PT_PHDR` entry is
preferred; otherwise the first `PT_LOAD` entry is inspected, and only if
its file offset is zero does the locator read `e_phoff` from the mapped
header; every candidate goes through `CheckPhdr`, whose failure makes the
lookup fail. -/
def ElfReader.FindPhdr (phoffAt : Nat → Nat) (tbl : List Phdr)
    (bias : Nat) : Option Nat :=
  match tbl.find? (fun p => p.p_type == PT_PHDR) with
  | some p =>
    let c := bias + p.p_vaddr
    if ElfReader.CheckPhdr tbl bias c then some c else none
  | none =>
    match tbl.find? (fun p => p.p_type == PT_LOAD) with
    | some p =>
      if p.p_offset = 0 then
        let elf_addr := bias + p.p_vaddr
        let c := elf_addr + phoffAt elf_addr
        if ElfReader.CheckPhdr tbl bias c then some c else none
      else none
    | none => none

/-! ## Section headers, dynamic section, string table -/

structure Shdr where
  sh_type : Nat
  sh_link : Nat
  sh_offset : Nat
  sh_size : Nat
  deriving DecidableEq, Repr

/-- Function `safe_add(out, a, b)`: aborts (modelled `none`) when `a < 0`, returns
`none` on signed-64 overflow, else the sum.  Both the `CHECK` abort and the
`false` return are collapsed into `none`. -/
def safe_add (a : Int) (b : Nat) : Option Int :=
  if a < 0 then none
  else if (2 ^ 63 - 1 - a) < (b : Int) then none
  else some (a + (b : Int))

/-- Function `ElfReader::CheckFileRange`: the range `[offset, offset+size)` shifted by the
reader's `file_offset_` must lie within the file and `offset` must be
`alignment`-aligned.  Present in the source but NOT called by
`ReadDynamicSection` (its call sites there are commented out). -/
def ElfReader.CheckFileRange (file_offset : Int) (file_size : Int)
    (offset size alignment : Nat) : Bool :=
  match safe_add file_offset offset with
  | none => false
  | some range_start =>
    match safe_add range_start size with
    | none => false
    | some range_end =>
      range_start < file_size && range_end ≤ file_size &&
        offset % alignment == 0

structure DynOut where
  dynamic : Nat
  strtab : Nat
  strtab_size : Nat
  deriving DecidableEq, Repr

/-- Function `ElfReader::ReadDynamicSection`.  Here `mapFrag off sz` models
`MappedFileFragment::Map(fd, file_offset_, off, sz)` returning a token for
the mapped data, `none` on failure.  Scans for the first `SHT_DYNAMIC`
section, validates `sh_link` bounds and the linked section's `SHT_STRTAB`
type, then maps the dynamic section and its string table; all failures are
`none` (the source returns `false` for each). -/
def ElfReader.ReadDynamicSection (mapFrag : Nat → Nat → Option Nat)
    (shdrs : List Shdr) : Option DynOut :=
  match shdrs.find? (fun s => s.sh_type == SHT_DYNAMIC) with
  | none => none
  | some dynamic_shdr =>
    if dynamic_shdr.sh_link ≥ shdrs.length then none
    else
      let strtab_shdr := shdrs.getD dynamic_shdr.sh_link ⟨0, 0, 0, 0⟩
      if strtab_shdr.sh_type ≠ SHT_STRTAB then none
      else
        match mapFrag dynamic_shdr.sh_offset dynamic_shdr.sh_size with
        | none => none
        | some dyn =>
          match mapFrag strtab_shdr.sh_offset strtab_shdr.sh_size with
          | none => none
          | some st => some ⟨dyn, st, strtab_shdr.sh_size⟩

/-- Spec-side definition (refinement comparison for the load-extent claim):
the minimum `p_vaddr` over LOAD entries, `UINTPTR_MAX` when there are none,
written as the fold the loop performs. -/
def spec_min_vaddr (tbl : List Phdr) : Nat :=
  tbl.foldl (fun m p => if p.p_type = PT_LOAD then min p.p_vaddr m else m)
    UINTPTR_MAX

/-- Spec-side definition: the maximum `p_vaddr + p_memsz` over LOAD entries,
0 when there are none. -/
def spec_max_vaddr (tbl : List Phdr) : Nat :=
  tbl.foldl
    (fun m p => if p.p_type = PT_LOAD then max (p.p_vaddr + p.p_memsz) m
      else m) 0

/-- Function `ElfReader::get_string`: the checks `CHECK(strtab_ != nullptr)` and
`CHECK(index < strtab_size_)` abort on violation (modelled `none`);
otherwise the result is the pointer `strtab_ + index`. -/
def ElfReader.get_string (strtab : Option Nat) (strtab_size : Nat)
    (index : Nat) : Option Nat :=
  match strtab with
  | none => none
  | some base => if index < strtab_size then some (base + index) else none

/-- C5 counterexample table: the first LOAD entry has file offset 5, a
later LOAD entry has file offset 0 and would contain the header table. -/
def tblC5 : List Phdr :=
  [Phdr.mk PT_LOAD 5 0x3000 0x100 0x100 PF_R,
   Phdr.mk PT_LOAD 0 0x1000 0x2000 0x2000 PF_R]

/-- C7 counterexample data: a dynamic section and string table whose file
ranges lie far beyond a file of size 8. -/
def shdrsC7 : List Shdr :=
  [Shdr.mk SHT_DYNAMIC 1 1000 1000, Shdr.mk SHT_STRTAB 0 5000 1000]

/-- A fragment-mapping oracle that always succeeds (the kernel will happily
map beyond the end of a file). -/
def mapFragOk : Nat → Nat → Option Nat := fun off sz => some (off + sz)

/-! ## Arithmetic helpers -/

theorem PAGE_START_le (x : Nat) : PAGE_START x ≤ x :=
  Nat.div_mul_le_self x PAGE_SIZE

theorem le_PAGE_END (x : Nat) : x ≤ PAGE_END x := by
  have h1 := Nat.div_add_mod (x + (PAGE_SIZE - 1)) PAGE_SIZE
  have h2 : (x + (PAGE_SIZE - 1)) % PAGE_SIZE < PAGE_SIZE :=
    Nat.mod_lt _ (by decide)
  simp only [PAGE_END, PAGE_START, PAGE_SIZE] at *
  omega

theorem if_lt_eq_min (a b : Nat) : (if a < b then a else b) = min a b := by
  rcases Nat.lt_or_ge a b with h | h
  · rw [if_pos h, Nat.min_def, if_pos (Nat.le_of_lt h)]
  · rw [if_neg (Nat.not_lt.mpr h), Nat.min_def]
    rcases Nat.eq_or_lt_of_le h with h2 | h2
    · simp [h2.symm]
    · rw [if_neg (Nat.not_le.mpr h2)]

theorem if_gt_eq_max (a b : Nat) : (if a > b then a else b) = max a b := by
  rcases Nat.lt_or_ge b a with h | h
  · rw [if_pos h, Nat.max_def, if_neg (Nat.not_le.mpr h)]
  · rw [if_neg (Nat.not_lt.mpr h), Nat.max_def]
    rw [if_pos h]

/-! ## Load-extent lemmas (claim C6 support) -/

theorem loadSizeLoop_eq_foldl (tbl : List Phdr) : ∀ mn mx f,
    loadSizeLoop tbl mn mx f =
      (tbl.foldl (fun m p => if p.p_type = PT_LOAD then min p.p_vaddr m
          else m) mn,
       tbl.foldl
         (fun m p => if p.p_type = PT_LOAD then max (p.p_vaddr + p.p_memsz) m
           else m) mx,
       f || tbl.any (fun p => p.p_type == PT_LOAD)) := by
  induction tbl with
  | nil => intro mn mx f; simp [loadSizeLoop]
  | cons p rest ih =>
    intro mn mx f
    rw [loadSizeLoop]
    by_cases hp : p.p_type = PT_LOAD
    · rw [if_neg (by simp [hp]), ih]
      simp [List.foldl_cons, hp, if_lt_eq_min, if_gt_eq_max, List.any_cons]
    · rw [if_pos hp, ih]
      have hb : (p.p_type == PT_LOAD) = false := by simp [hp]
      simp [List.foldl_cons, hp, List.any_cons, hb]

theorem foldl_min_le_init (tbl : List Phdr) : ∀ init : Nat,
    tbl.foldl (fun m p => if p.p_type = PT_LOAD then min p.p_vaddr m else m)
      init ≤ init := by
  induction tbl with
  | nil => intro init; simp
  | cons p rest ih =>
    intro init
    rw [List.foldl_cons]
    refine le_trans (ih _) ?_
    split
    · exact Nat.min_le_right _ _
    · exact le_refl _

theorem foldl_min_le (tbl : List Phdr) : ∀ init : Nat, ∀ p ∈ tbl,
    p.p_type = PT_LOAD →
    tbl.foldl (fun m q => if q.p_type = PT_LOAD then min q.p_vaddr m else m)
      init ≤ p.p_vaddr := by
  induction tbl with
  | nil => intro init p hp; exact absurd hp (List.not_mem_nil p)
  | cons q rest ih =>
    intro init p hp hL
    rw [List.foldl_cons]
    rcases List.mem_cons.mp hp with rfl | hp2
    · rw [if_pos hL]
      exact le_trans (foldl_min_le_init rest _) (Nat.min_le_left _ _)
    · exact ih _ p hp2 hL

theorem le_foldl_max_init (tbl : List Phdr) : ∀ init : Nat,
    init ≤ tbl.foldl
      (fun m p => if p.p_type = PT_LOAD then max (p.p_vaddr + p.p_memsz) m
        else m) init := by
  induction tbl with
  | nil => intro init; simp
  | cons p rest ih =>
    intro init
    rw [List.foldl_cons]
    refine le_trans ?_ (ih _)
    split
    · exact Nat.le_max_right _ _
    · exact le_refl _

theorem le_foldl_max (tbl : List Phdr) : ∀ init : Nat, ∀ p ∈ tbl,
    p.p_type = PT_LOAD →
    p.p_vaddr + p.p_memsz ≤ tbl.foldl
      (fun m q => if q.p_type = PT_LOAD then max (q.p_vaddr + q.p_memsz) m
        else m) init := by
  induction tbl with
  | nil => intro init p hp; exact absurd hp (List.not_mem_nil p)
  | cons q rest ih =>
    intro init p hp hL
    rw [List.foldl_cons]
    rcases List.mem_cons.mp hp with rfl | hp2
    · rw [if_pos hL]
      exact le_trans (Nat.le_max_left _ _) (le_foldl_max_init rest _)
    · exact ih _ p hp2 hL

theorem spec_min_le_spec_max (tbl : List Phdr) (p : Phdr) (hp : p ∈ tbl)
    (hL : p.p_type = PT_LOAD) : spec_min_vaddr tbl ≤ spec_max_vaddr tbl :=
  le_trans (foldl_min_le tbl _ p hp hL)
    (le_trans (Nat.le_add_right _ _) (le_foldl_max tbl _ p hp hL))

theorem foldl_max_of_no_load : ∀ tbl : List Phdr,
    (∀ p ∈ tbl, p.p_type ≠ PT_LOAD) → ∀ init : Nat,
    tbl.foldl
      (fun m p => if p.p_type = PT_LOAD then max (p.p_vaddr + p.p_memsz) m
        else m) init = init := by
  intro tbl
  induction tbl with
  | nil => intro _ init; simp
  | cons q rest ih =>
    intro hno init
    rw [List.foldl_cons, if_neg (hno q (List.mem_cons_self q rest))]
    exact ih (fun r hr => hno r (List.mem_cons_of_mem q hr)) init

theorem get_load_size_eq (tbl : List Phdr) :
    phdr_table_get_load_size tbl =
      (PAGE_END (spec_max_vaddr tbl) -
        PAGE_START
          (if tbl.any (fun p => p.p_type == PT_LOAD) then spec_min_vaddr tbl
           else 0),
       PAGE_START
         (if tbl.any (fun p => p.p_type == PT_LOAD) then spec_min_vaddr tbl
          else 0),
       PAGE_END (spec_max_vaddr tbl)) := by
  unfold phdr_table_get_load_size
  rw [loadSizeLoop_eq_foldl]
  rfl

/-- C6: for every program header table (in the no-overflow regime of the
machine integers), the computation of `phdr_table_get_load_size` yields
`out_min_vaddr` as the page-rounded-down minimum `p_vaddr` over LOAD
entries and the extent as the page-rounded-up maximum of
`p_vaddr + p_memsz` minus that minimum, so every LOAD entry's range lies in
`[min_vaddr, min_vaddr + extent)`; a table with no LOAD entry has extent 0
and `ElfReader::ReserveAddressSpace` fails with the fatal
"no loadable segments" error. -/
theorem load_extent_spec (tbl : List Phdr)
    (hbound : ∀ p ∈ tbl, p.p_type = PT_LOAD →
      p.p_vaddr + p.p_memsz + PAGE_SIZE ≤ 2 ^ 64) :
    ((∃ p ∈ tbl, p.p_type = PT_LOAD) →
      (phdr_table_get_load_size tbl).2.1 = PAGE_START (spec_min_vaddr tbl) ∧
      (phdr_table_get_load_size tbl).2.2 = PAGE_END (spec_max_vaddr tbl) ∧
      (phdr_table_get_load_size tbl).1 =
        PAGE_END (spec_max_vaddr tbl) - PAGE_START (spec_min_vaddr tbl) ∧
      ∀ p ∈ tbl, p.p_type = PT_LOAD →
        (phdr_table_get_load_size tbl).2.1 ≤ p.p_vaddr ∧
        p.p_vaddr + p.p_memsz ≤
          (phdr_table_get_load_size tbl).2.1 +
            (phdr_table_get_load_size tbl).1) ∧
    ((∀ p ∈ tbl, p.p_type ≠ PT_LOAD) →
      (phdr_table_get_load_size tbl).1 = 0 ∧
      ∀ kmm name extinfo reg,
        ElfReader.ReserveAddressSpace kmm name extinfo tbl reg =
          .error .noLoadableSegments) := by
  clear hbound
  constructor
  · rintro ⟨p, hp, hL⟩
    have hany : tbl.any (fun q => q.p_type == PT_LOAD) = true := by
      rw [List.any_eq_true]
      exact ⟨p, hp, by simp [hL]⟩
    have e1 : (phdr_table_get_load_size tbl).2.1 =
        PAGE_START (spec_min_vaddr tbl) := by
      rw [get_load_size_eq, hany]; rfl
    have e2 : (phdr_table_get_load_size tbl).2.2 =
        PAGE_END (spec_max_vaddr tbl) := by
      rw [get_load_size_eq]
    have e3 : (phdr_table_get_load_size tbl).1 =
        PAGE_END (spec_max_vaddr tbl) - PAGE_START (spec_min_vaddr tbl) := by
      rw [get_load_size_eq, hany]; rfl
    refine ⟨e1, e2, e3, ?_⟩
    intro q hq hqL
    have h1 : spec_min_vaddr tbl ≤ q.p_vaddr := foldl_min_le tbl _ q hq hqL
    have h2 : q.p_vaddr + q.p_memsz ≤ spec_max_vaddr tbl :=
      le_foldl_max tbl _ q hq hqL
    have h3 : spec_min_vaddr tbl ≤ spec_max_vaddr tbl :=
      spec_min_le_spec_max tbl q hq hqL
    have h4 : PAGE_START (spec_min_vaddr tbl) ≤ spec_min_vaddr tbl :=
      PAGE_START_le _
    have h5 : spec_max_vaddr tbl ≤ PAGE_END (spec_max_vaddr tbl) :=
      le_PAGE_END _
    rw [e1, e3]
    exact ⟨le_trans h4 h1, by omega⟩
  · intro hno
    have hany : tbl.any (fun q => q.p_type == PT_LOAD) = false := by
      rw [List.any_eq_false]
      intro q hq
      simp [hno q hq]
    have hmax : spec_max_vaddr tbl = 0 :=
      foldl_max_of_no_load tbl hno 0
    have hsize : (phdr_table_get_load_size tbl).1 = 0 := by
      rw [get_load_size_eq, hany, hmax]
      simp [PAGE_END, PAGE_START, PAGE_SIZE]
    refine ⟨hsize, ?_⟩
    intro kmm name extinfo reg
    simp [ElfReader.ReserveAddressSpace, hsize]

/-- C6 witness. -/
theorem load_extent_spec_witness :
    (phdr_table_get_load_size [Phdr.mk PT_LOAD 0 0x30 0x100 0x200 PF_R]).2.1 =
        PAGE_START
          (spec_min_vaddr [Phdr.mk PT_LOAD 0 0x30 0x100 0x200 PF_R]) ∧
      (phdr_table_get_load_size
          [Phdr.mk PT_LOAD 0 0x30 0x100 0x200 PF_R]).1 = 0x1000 := by
  have h := (load_extent_spec [Phdr.mk PT_LOAD 0 0x30 0x100 0x200 PF_R]
    (by decide)).1 ⟨Phdr.mk PT_LOAD 0 0x30 0x100 0x200 PF_R, by decide,
      by decide⟩
  exact ⟨h.1, by decide⟩

/-! ## Protection-controller lemmas (claim C9 support) -/

theorem mem_set_load_prot (tbl : List Phdr) (bias extra : Nat)
    (e : Nat × Nat × Nat) :
    e ∈ phdr_table_set_load_prot tbl bias extra ↔
      ∃ p, p ∈ tbl ∧ p.p_type = PT_LOAD ∧ p.p_flags &&& PF_W = 0 ∧
        e = (PAGE_START p.p_vaddr + bias,
             PAGE_END (p.p_vaddr + p.p_memsz) + bias -
               (PAGE_START p.p_vaddr + bias),
             PFLAGS_TO_PROT p.p_flags ||| extra) := by
  induction tbl with
  | nil => simp [phdr_table_set_load_prot]
  | cons p rest ih =>
    rw [phdr_table_set_load_prot]
    by_cases hc : p.p_type ≠ PT_LOAD ∨ p.p_flags &&& PF_W ≠ 0
    · rw [if_pos hc, ih]
      constructor
      · rintro ⟨q, hq, h1, h2, h3⟩
        exact ⟨q, List.mem_cons_of_mem _ hq, h1, h2, h3⟩
      · rintro ⟨q, hq, h1, h2, h3⟩
        rcases List.mem_cons.mp hq with rfl | hq2
        · rcases hc with h | h
          · exact absurd h1 h
          · exact absurd h2 h
        · exact ⟨q, hq2, h1, h2, h3⟩
    · push_neg at hc
      rw [if_neg (by push_neg; exact hc)]
      rw [List.mem_cons, ih]
      constructor
      · rintro (rfl | ⟨q, hq, h1, h2, h3⟩)
        · exact ⟨p, List.mem_cons_self p rest, hc.1, hc.2, rfl⟩
        · exact ⟨q, List.mem_cons_of_mem _ hq, h1, h2, h3⟩
      · rintro ⟨q, hq, h1, h2, h3⟩
        rcases List.mem_cons.mp hq with rfl | hq2
        · exact Or.inl h3
        · exact Or.inr ⟨q, hq2, h1, h2, h3⟩

theorem set_load_prot_skip (p : Phdr) (rest : List Phdr) (bias extra : Nat)
    (hp : p.p_type ≠ PT_LOAD ∨ p.p_flags &&& PF_W ≠ 0) :
    phdr_table_set_load_prot (p :: rest) bias extra =
      phdr_table_set_load_prot rest bias extra := by
  rw [phdr_table_set_load_prot, if_pos hp]

/-- C9: the two protection-toggle calls change protections only for LOAD
entries whose flags are not writable: an entry of
`phdr_table_unprotect_segments` carries the segment's translated protection
with `PROT_WRITE` OR'd in, an entry of `phdr_table_protect_segments`
carries exactly the translated original flags with no extra bits; a LOAD
entry that is already writable contributes no protection request to either
call (removing it from the table leaves the request list unchanged). -/
theorem protection_toggle_spec (tbl : List Phdr) (bias : Nat) :
    (∀ e, e ∈ phdr_table_unprotect_segments tbl bias ↔
      ∃ p, p ∈ tbl ∧ p.p_type = PT_LOAD ∧ p.p_flags &&& PF_W = 0 ∧
        e = (PAGE_START p.p_vaddr + bias,
             PAGE_END (p.p_vaddr + p.p_memsz) + bias -
               (PAGE_START p.p_vaddr + bias),
             PFLAGS_TO_PROT p.p_flags ||| PROT_WRITE)) ∧
    (∀ e, e ∈ phdr_table_protect_segments tbl bias ↔
      ∃ p, p ∈ tbl ∧ p.p_type = PT_LOAD ∧ p.p_flags &&& PF_W = 0 ∧
        e = (PAGE_START p.p_vaddr + bias,
             PAGE_END (p.p_vaddr + p.p_memsz) + bias -
               (PAGE_START p.p_vaddr + bias),
             PFLAGS_TO_PROT p.p_flags)) ∧
    (∀ pre p post extra, tbl = pre ++ p :: post → p.p_type = PT_LOAD →
      p.p_flags &&& PF_W ≠ 0 →
      phdr_table_set_load_prot tbl bias extra =
        phdr_table_set_load_prot (pre ++ post) bias extra) := by
  refine ⟨?_, ?_, ?_⟩
  · intro e
    exact mem_set_load_prot tbl bias PROT_WRITE e
  · intro e
    rw [phdr_table_protect_segments, mem_set_load_prot]
    constructor
    · rintro ⟨q, hq, h1, h2, h3⟩
      exact ⟨q, hq, h1, h2, by simpa using h3⟩
    · rintro ⟨q, hq, h1, h2, h3⟩
      exact ⟨q, hq, h1, h2, by simpa using h3⟩
  · intro pre p post extra htbl hL hW
    subst htbl
    induction pre with
    | nil =>
      simpa using set_load_prot_skip p post bias extra (Or.inr hW)
    | cons q pre ih =>
      by_cases hq : q.p_type ≠ PT_LOAD ∨ q.p_flags &&& PF_W ≠ 0
      · rw [List.cons_append, set_load_prot_skip q _ _ _ hq,
            List.cons_append, set_load_prot_skip q _ _ _ hq, ih]
      · push_neg at hq
        rw [List.cons_append, phdr_table_set_load_prot,
          if_neg (by push_neg; exact hq), ih, List.cons_append,
          phdr_table_set_load_prot, if_neg (by push_neg; exact hq)]

/-- C9 witness: a table with one hardened LOAD entry and one writable LOAD
entry; the writable one produces no request and the hardened one is
toggled with and without write access. -/
theorem protection_toggle_spec_witness :
    ((0x1000, 0x1000, PROT_READ ||| PROT_WRITE) ∈
      phdr_table_unprotect_segments
        [Phdr.mk PT_LOAD 0 0x1000 0x800 0x800 PF_R,
         Phdr.mk PT_LOAD 0 0x3000 0x800 0x800 (PF_R ||| PF_W)] 0) ∧
    phdr_table_set_load_prot
        [Phdr.mk PT_LOAD 0 0x1000 0x800 0x800 PF_R,
         Phdr.mk PT_LOAD 0 0x3000 0x800 0x800 (PF_R ||| PF_W)] 0 0 =
      phdr_table_set_load_prot
        [Phdr.mk PT_LOAD 0 0x1000 0x800 0x800 PF_R] 0 0 := by
  constructor
  · exact ((protection_toggle_spec
      [Phdr.mk PT_LOAD 0 0x1000 0x800 0x800 PF_R,
       Phdr.mk PT_LOAD 0 0x3000 0x800 0x800 (PF_R ||| PF_W)] 0).1 _).mpr
      ⟨Phdr.mk PT_LOAD 0 0x1000 0x800 0x800 PF_R, by decide, by decide,
        by decide, by decide⟩
  · exact (protection_toggle_spec
      [Phdr.mk PT_LOAD 0 0x1000 0x800 0x800 PF_R,
       Phdr.mk PT_LOAD 0 0x3000 0x800 0x800 (PF_R ||| PF_W)] 0).2.2
      [Phdr.mk PT_LOAD 0 0x1000 0x800 0x800 PF_R]
      (Phdr.mk PT_LOAD 0 0x3000 0x800 0x800 (PF_R ||| PF_W)) [] 0 rfl
      (by decide) (by decide)

/-- C5 counterexample: the claim reads the fallback as using "the first
LOAD entry with file offset zero"; the code inspects only the first LOAD
entry and fails when its offset is non-zero.  On `tblC5` there is no
PT_PHDR, the first zero-offset LOAD entry exists and its candidate address
passes `CheckPhdr`, yet `FindPhdr` fails. -/
theorem find_phdr_counterexample :
    ElfReader.FindPhdr (fun _ => 64) tblC5 0 = none ∧
    List.find? (fun q => q.p_type == PT_PHDR) tblC5 = none ∧
    List.find? (fun q => q.p_type == PT_LOAD && q.p_offset == 0) tblC5 =
      some (Phdr.mk PT_LOAD 0 0x1000 0x2000 0x2000 PF_R) ∧
    ElfReader.CheckPhdr tblC5 0 (0 + 0x1000 + 64) = true := by
  decide

/-- C5 (amended: the fallback uses the first LOAD entry and requires its
file offset to be zero, failing otherwise): `FindPhdr` returns
`bias + p_vaddr` of a PT_PHDR entry when one exists; otherwise, when the
first LOAD entry has offset zero, it returns that segment's base address
plus the `e_phoff` read from the in-memory header there; both candidates
are gated by `CheckPhdr`, which holds exactly when the candidate plus the
full table byte length lies inside some LOAD segment's file-backed extent,
and whose failure makes the lookup fail. -/
theorem find_phdr_spec (phoffAt : Nat → Nat) (tbl : List Phdr)
    (bias : Nat) :
    (∀ p, tbl.find? (fun q => q.p_type == PT_PHDR) = some p →
      ElfReader.FindPhdr phoffAt tbl bias =
        (if ElfReader.CheckPhdr tbl bias (bias + p.p_vaddr) then
          some (bias + p.p_vaddr) else none)) ∧
    (tbl.find? (fun q => q.p_type == PT_PHDR) = none →
      ∀ p, tbl.find? (fun q => q.p_type == PT_LOAD) = some p →
      (p.p_offset = 0 →
        ElfReader.FindPhdr phoffAt tbl bias =
          (if ElfReader.CheckPhdr tbl bias
              (bias + p.p_vaddr + phoffAt (bias + p.p_vaddr)) then
            some (bias + p.p_vaddr + phoffAt (bias + p.p_vaddr))
           else none)) ∧
      (p.p_offset ≠ 0 → ElfReader.FindPhdr phoffAt tbl bias = none)) ∧
    (∀ c, ElfReader.CheckPhdr tbl bias c = true ↔
      ∃ p, p ∈ tbl ∧ p.p_type = PT_LOAD ∧ p.p_vaddr + bias ≤ c ∧
        c + tbl.length * sizeofPhdr ≤ p.p_filesz + (p.p_vaddr + bias)) := by
  refine ⟨?_, ?_, ?_⟩
  · intro p hp
    rw [ElfReader.FindPhdr, hp]
  · intro hnone p hp
    constructor
    · intro hoff
      simp [ElfReader.FindPhdr, hnone, hp, hoff]
    · intro hoff
      simp [ElfReader.FindPhdr, hnone, hp, hoff]
  · intro c
    rw [ElfReader.CheckPhdr]
    rw [List.any_eq_true]
    constructor
    · rintro ⟨p, hp, hb⟩
      simp only [Bool.and_eq_true, beq_iff_eq, decide_eq_true_eq] at hb
      exact ⟨p, hp, hb.1, hb.2.1, hb.2.2⟩
    · rintro ⟨p, hp, h1, h2, h3⟩
      exact ⟨p, hp, by simp [h1, h2, h3]⟩

/-- C5 witness: both locator paths and the containment check on concrete
tables. -/
theorem find_phdr_spec_witness :
    ElfReader.FindPhdr (fun _ => 64)
        [Phdr.mk PT_PHDR 64 0x40 (14 * sizeofPhdr) (14 * sizeofPhdr) PF_R,
         Phdr.mk PT_LOAD 0 0 0x1000 0x1000 PF_R] 0x10000 =
      some 0x10040 ∧
    ElfReader.FindPhdr (fun _ => 64)
        [Phdr.mk PT_LOAD 0 0x1000 0x2000 0x2000 PF_R] 0 =
      some 0x1040 := by
  constructor
  · have h := (find_phdr_spec (fun _ => 64)
      [Phdr.mk PT_PHDR 64 0x40 (14 * sizeofPhdr) (14 * sizeofPhdr) PF_R,
       Phdr.mk PT_LOAD 0 0 0x1000 0x1000 PF_R] 0x10000).1
      (Phdr.mk PT_PHDR 64 0x40 (14 * sizeofPhdr) (14 * sizeofPhdr) PF_R)
      (by decide)
    rw [h]
    decide
  · have h := ((find_phdr_spec (fun _ => 64)
      [Phdr.mk PT_LOAD 0 0x1000 0x2000 0x2000 PF_R] 0).2.1 (by decide)
      (Phdr.mk PT_LOAD 0 0x1000 0x2000 0x2000 PF_R) (by decide)).1
      (by decide)
    rw [h]
    decide

/-- C7 counterexample: both fragments fail `CheckFileRange` against a file
of size 8 (with the alignments the commented-out call sites would have
used), yet `ReadDynamicSection` proceeds to map them and succeeds — the
bounds check the claim describes is absent from the code path. -/
theorem read_dynamic_counterexample :
    ElfReader.ReadDynamicSection mapFragOk shdrsC7 =
      some (DynOut.mk 2000 6000 1000) ∧
    ElfReader.CheckFileRange 0 8 1000 1000 8 = false ∧
    ElfReader.CheckFileRange 0 8 5000 1000 1 = false := by
  constructor
  · rfl
  · constructor <;> rfl

/-- C7 (amended: the find/link/type validations are performed, but no
bounds check against the file size precedes the mapping — the
`CheckFileRange` call sites are commented out; failures come only from the
section scan, the `sh_link` validation, or the mapping operation itself):
characterization of `ReadDynamicSection`. -/
theorem read_dynamic_spec (mapFrag : Nat → Nat → Option Nat)
    (shdrs : List Shdr) :
    (shdrs.find? (fun s => s.sh_type == SHT_DYNAMIC) = none →
      ElfReader.ReadDynamicSection mapFrag shdrs = none) ∧
    (∀ d, shdrs.find? (fun s => s.sh_type == SHT_DYNAMIC) = some d →
      (shdrs.length ≤ d.sh_link →
        ElfReader.ReadDynamicSection mapFrag shdrs = none) ∧
      (d.sh_link < shdrs.length →
        ((shdrs.getD d.sh_link (Shdr.mk 0 0 0 0)).sh_type ≠ SHT_STRTAB →
          ElfReader.ReadDynamicSection mapFrag shdrs = none) ∧
        ((shdrs.getD d.sh_link (Shdr.mk 0 0 0 0)).sh_type = SHT_STRTAB →
          (mapFrag d.sh_offset d.sh_size = none →
            ElfReader.ReadDynamicSection mapFrag shdrs = none) ∧
          ∀ dy, mapFrag d.sh_offset d.sh_size = some dy →
            (mapFrag (shdrs.getD d.sh_link (Shdr.mk 0 0 0 0)).sh_offset
                (shdrs.getD d.sh_link (Shdr.mk 0 0 0 0)).sh_size = none →
              ElfReader.ReadDynamicSection mapFrag shdrs = none) ∧
            ∀ st, mapFrag (shdrs.getD d.sh_link (Shdr.mk 0 0 0 0)).sh_offset
                (shdrs.getD d.sh_link (Shdr.mk 0 0 0 0)).sh_size = some st →
              ElfReader.ReadDynamicSection mapFrag shdrs =
                some (DynOut.mk dy st
                  (shdrs.getD d.sh_link (Shdr.mk 0 0 0 0)).sh_size)))) := by
  constructor
  · intro hnone
    rw [ElfReader.ReadDynamicSection, hnone]
  · intro d hd
    constructor
    · intro hlink
      simp [ElfReader.ReadDynamicSection, hd, hlink]
    · intro hlink
      have hnl : ¬shdrs.length ≤ d.sh_link := Nat.not_le.mpr hlink
      constructor
      · intro htype
        rw [List.getD_eq_getElem?_getD] at htype
        simp [ElfReader.ReadDynamicSection, hd, hnl, htype]
      · intro htype
        rw [List.getD_eq_getElem?_getD] at htype
        constructor
        · intro hmap
          simp [ElfReader.ReadDynamicSection, hd, hnl, htype, hmap]
        · intro dy hdy
          constructor
          · intro hmap2
            rw [List.getD_eq_getElem?_getD] at hmap2
            simp [ElfReader.ReadDynamicSection, hd, hnl, htype, hdy, hmap2]
          · intro st hst
            rw [List.getD_eq_getElem?_getD] at hst
            simp [ElfReader.ReadDynamicSection, hd, hnl, htype, hdy, hst,
              List.getD_eq_getElem?_getD]

/-- C7 witness: a well-formed two-section table is read successfully; a
table whose DYNAMIC section links to a non-STRTAB section fails. -/
theorem read_dynamic_spec_witness :
    ElfReader.ReadDynamicSection mapFragOk
        [Shdr.mk SHT_DYNAMIC 1 0x200 0x40, Shdr.mk SHT_STRTAB 0 0x240 0x20] =
      some (DynOut.mk 0x240 0x260 0x20) ∧
    ElfReader.ReadDynamicSection mapFragOk
        [Shdr.mk SHT_DYNAMIC 1 0x200 0x40, Shdr.mk SHT_DYNAMIC 0 0 0] =
      none := by
  constructor
  · have h := ((((read_dynamic_spec mapFragOk
      [Shdr.mk SHT_DYNAMIC 1 0x200 0x40,
       Shdr.mk SHT_STRTAB 0 0x240 0x20]).2
      (Shdr.mk SHT_DYNAMIC 1 0x200 0x40) (by decide)).2 (by decide)).2
      (by decide)).2 0x240 rfl |>.2 0x260 rfl
    simpa using h
  · have h := (((read_dynamic_spec mapFragOk
      [Shdr.mk SHT_DYNAMIC 1 0x200 0x40,
       Shdr.mk SHT_DYNAMIC 0 0 0]).2
      (Shdr.mk SHT_DYNAMIC 1 0x200 0x40) (by decide)).2 (by decide)).1
      (by decide)
    exact h

/-- C10: the public accessor `get_string` requires a loaded string table
and an index strictly below the loaded size, aborting otherwise; under the
precondition it returns the pointer `strtab_ + index`. -/
theorem get_string_spec (strtab : Option Nat) (sz idx : Nat) :
    (∀ base, strtab = some base → idx < sz →
      ElfReader.get_string strtab sz idx = some (base + idx)) ∧
    (strtab = none → ElfReader.get_string strtab sz idx = none) ∧
    (sz ≤ idx → ElfReader.get_string strtab sz idx = none) := by
  refine ⟨?_, ?_, ?_⟩
  · rintro base rfl h
    simp [ElfReader.get_string, h]
  · rintro rfl
    rfl
  · intro h
    cases strtab with
    | none => rfl
    | some base => simp [ElfReader.get_string, Nat.not_lt.mpr h]

/-- C3: an image whose name matches the guest runtime (`strstr` hit on
"libc.so") and whose computed minimum vaddr is null is forced to the fixed
`GUEST_LIBC_ADDR` of the registry; on success the registry's guest-libc
address and size are written back, and `init_seccomp` runs inside the
reservation call — in the load trace the installation event precedes every
segment-mapping event, and the reservation's own event list already
contains it. -/
theorem reserve_guest_runtime (kmm : Nat → Nat → Option Nat)
    (name : List Char) (tbl : List Phdr) (reg : LayoutRegistry)
    (hname : strstrHit "libc.so".toList name = true)
    (hmin : (phdr_table_get_load_size tbl).2.1 = 0)
    (hsz : (phdr_table_get_load_size tbl).1 ≠ 0)
    (hmm : kmm reg.guest_libc_addr (phdr_table_get_load_size tbl).1 =
      some reg.guest_libc_addr) :
    ∃ r, ElfReader.ReserveAddressSpace kmm name none tbl reg = .ok r ∧
      r.load_start = reg.guest_libc_addr ∧
      r.load_size = (phdr_table_get_load_size tbl).1 ∧
      r.registry.guest_libc_addr = reg.guest_libc_addr ∧
      r.registry.guest_libc_size = (phdr_table_get_load_size tbl).1 ∧
      r.seccomp_installed = true ∧
      r.events = [.reserveMmap reg.guest_libc_addr
        (phdr_table_get_load_size tbl).1, .installSeccomp] ∧
      ElfReader.LoadTrace kmm name none tbl reg = .ok (r,
        .reserveMmap reg.guest_libc_addr (phdr_table_get_load_size tbl).1 ::
          .installSeccomp :: ElfReader.LoadSegmentsEvents tbl r.load_bias) := by
  have hpos : 0 < (phdr_table_get_load_size tbl).1 := Nat.pos_of_ne_zero hsz
  simp only [ElfReader.ReserveAddressSpace, ElfReader.LoadTrace, hmin, hsz,
    hname, hmm, hpos, if_neg hsz, if_pos hpos]
  simp [hmm]

/-- C3 witness: a concrete one-segment image named "libc.so" with null
minimum vaddr, a registry with the default fixed layout, and an mmap
oracle that honours the fixed request. -/
theorem reserve_guest_runtime_witness :
    ∃ r, ElfReader.ReserveAddressSpace (fun a _ => some a) "libc.so".toList
        none [Phdr.mk PT_LOAD 0 0 0x1000 0x1000 PF_R]
        (LayoutRegistry.mk 0xbc9e0000 0x30000 0xbca20000 0x100000 0xbcb20000
          0x140000 0xbcc60000 0x130000 0xbcd90000 0 0) = .ok r ∧
      r.load_start = 0xbcc60000 ∧
      r.load_size = 0x1000 ∧
      r.registry.guest_libc_addr = 0xbcc60000 ∧
      r.registry.guest_libc_size = 0x1000 ∧
      r.seccomp_installed = true ∧
      r.events = [.reserveMmap 0xbcc60000 0x1000, .installSeccomp] ∧
      ElfReader.LoadTrace (fun a _ => some a) "libc.so".toList none
          [Phdr.mk PT_LOAD 0 0 0x1000 0x1000 PF_R]
          (LayoutRegistry.mk 0xbc9e0000 0x30000 0xbca20000 0x100000
            0xbcb20000 0x140000 0xbcc60000 0x130000 0xbcd90000 0 0) =
        .ok (r, .reserveMmap 0xbcc60000 0x1000 :: .installSeccomp ::
          ElfReader.LoadSegmentsEvents [Phdr.mk PT_LOAD 0 0 0x1000 0x1000 PF_R]
            r.load_bias) :=
  reserve_guest_runtime (fun a _ => some a) "libc.so".toList
    [Phdr.mk PT_LOAD 0 0 0x1000 0x1000 PF_R]
    (LayoutRegistry.mk 0xbc9e0000 0x30000 0xbca20000 0x100000 0xbcb20000
      0x140000 0xbcc60000 0x130000 0xbcd90000 0 0)
    (by decide) (by decide) (by decide) (by decide)

/-- C4: an undersized advisory hint falls back to a fresh anonymous
reservation of the full extent and succeeds with the kernel's chosen start;
an undersized explicit reservation is an `AddressSpaceError` carrying the
`DL_ERR` arguments `reserved_size - load_size` (the signed shortfall) and
`load_size`; a sufficient explicit reservation is used as the load start. -/
theorem reserve_extinfo_spec (kmm : Nat → Nat → Option Nat)
    (name : List Char) (tbl : List Phdr) (reg : LayoutRegistry)
    (e : DlExtInfo) (hsz : (phdr_table_get_load_size tbl).1 ≠ 0) :
    (e.flags &&& ANDROID_DLEXT_RESERVED_ADDRESS = 0 →
      e.flags &&& ANDROID_DLEXT_RESERVED_ADDRESS_HINT ≠ 0 →
      e.reserved_size < (phdr_table_get_load_size tbl).1 →
      ∀ st, (∀ a, kmm a (phdr_table_get_load_size tbl).1 = some st) →
      ∃ r, ElfReader.ReserveAddressSpace kmm name (some e) tbl reg = .ok r ∧
        r.load_start = st ∧
        r.load_size = (phdr_table_get_load_size tbl).1) ∧
    (e.flags &&& ANDROID_DLEXT_RESERVED_ADDRESS ≠ 0 →
      e.reserved_size < (phdr_table_get_load_size tbl).1 →
      ElfReader.ReserveAddressSpace kmm name (some e) tbl reg =
        .error (.addressSpaceError
          ((e.reserved_size : Int) - ((phdr_table_get_load_size tbl).1 : Int))
          (phdr_table_get_load_size tbl).1)) ∧
    (e.flags &&& ANDROID_DLEXT_RESERVED_ADDRESS ≠ 0 →
      (phdr_table_get_load_size tbl).1 ≤ e.reserved_size →
      ∃ r, ElfReader.ReserveAddressSpace kmm name (some e) tbl reg = .ok r ∧
        r.load_start = e.reserved_addr ∧
        r.load_size = (phdr_table_get_load_size tbl).1) := by
  refine ⟨?_, ?_, ?_⟩
  · intro hra hhint hsmall st hk
    simp only [ElfReader.ReserveAddressSpace, if_neg hsz, hra, hhint,
      if_pos hsmall]
    simp only [ne_eq, not_true_eq_false, ite_false, if_neg (by simp : ¬(0 : Nat) ≠ 0),
      if_pos hsmall]
    simp [hra, hhint, hsmall, hk]
  · intro hra hsmall
    simp only [ElfReader.ReserveAddressSpace, if_neg hsz]
    simp [hra, hsmall]
  · intro hra hbig
    simp only [ElfReader.ReserveAddressSpace, if_neg hsz]
    simp [hra, Nat.not_lt.mpr hbig]

/-- C4 witness: a 2-page image against a 1-page hint (fallback succeeds at
the kernel-chosen address 0x7f0000), a 1-page explicit reservation (error
with shortfall arguments -4096 and 8192), and an 8-page explicit
reservation at 0x100000 (used directly). -/
theorem reserve_extinfo_spec_witness :
    (∃ r, ElfReader.ReserveAddressSpace (fun _ _ => some 0x7f0000)
        "x".toList (some (DlExtInfo.mk ANDROID_DLEXT_RESERVED_ADDRESS_HINT
          0x100000 0x1000)) [Phdr.mk PT_LOAD 0 0x10000 0x2000 0x2000 PF_R]
        (LayoutRegistry.mk 0 0 0 0 0 0 0 0 0 0 0) = .ok r ∧
      r.load_start = 0x7f0000 ∧ r.load_size = 0x2000) ∧
    ElfReader.ReserveAddressSpace (fun _ _ => some 0x7f0000) "x".toList
        (some (DlExtInfo.mk ANDROID_DLEXT_RESERVED_ADDRESS 0x100000 0x1000))
        [Phdr.mk PT_LOAD 0 0x10000 0x2000 0x2000 PF_R]
        (LayoutRegistry.mk 0 0 0 0 0 0 0 0 0 0 0) =
      .error (.addressSpaceError (-4096) 8192) ∧
    (∃ r, ElfReader.ReserveAddressSpace (fun _ _ => some 0x7f0000)
        "x".toList (some (DlExtInfo.mk ANDROID_DLEXT_RESERVED_ADDRESS
          0x100000 0x8000)) [Phdr.mk PT_LOAD 0 0x10000 0x2000 0x2000 PF_R]
        (LayoutRegistry.mk 0 0 0 0 0 0 0 0 0 0 0) = .ok r ∧
      r.load_start = 0x100000 ∧ r.load_size = 0x2000) := by
  refine ⟨?_, ?_, ?_⟩
  · exact (reserve_extinfo_spec (fun _ _ => some 0x7f0000) "x".toList
      [Phdr.mk PT_LOAD 0 0x10000 0x2000 0x2000 PF_R]
      (LayoutRegistry.mk 0 0 0 0 0 0 0 0 0 0 0)
      (DlExtInfo.mk ANDROID_DLEXT_RESERVED_ADDRESS_HINT 0x100000 0x1000)
      (by decide)).1 (by decide) (by decide) (by decide) 0x7f0000
      (fun a => rfl)
  · have h := (reserve_extinfo_spec (fun _ _ => some 0x7f0000) "x".toList
      [Phdr.mk PT_LOAD 0 0x10000 0x2000 0x2000 PF_R]
      (LayoutRegistry.mk 0 0 0 0 0 0 0 0 0 0 0)
      (DlExtInfo.mk ANDROID_DLEXT_RESERVED_ADDRESS 0x100000 0x1000)
      (by decide)).2.1 (by decide) (by decide)
    simpa using h
  · exact (reserve_extinfo_spec (fun _ _ => some 0x7f0000) "x".toList
      [Phdr.mk PT_LOAD 0 0x10000 0x2000 0x2000 PF_R]
      (LayoutRegistry.mk 0 0 0 0 0 0 0 0 0 0 0)
      (DlExtInfo.mk ANDROID_DLEXT_RESERVED_ADDRESS 0x100000 0x8000)
      (by decide)).2.2 (by decide) (by decide)

/-- C10 witness. -/
theorem get_string_spec_witness :
    ElfReader.get_string (some 0x7000) 16 5 = some 0x7005 ∧
    ElfReader.get_string none 16 5 = none ∧
    ElfReader.get_string (some 0x7000) 16 16 = none :=
  ⟨(get_string_spec (some 0x7000) 16 5).1 0x7000 rfl (by decide),
   (get_string_spec none 16 5).2.1 rfl,
   (get_string_spec (some 0x7000) 16 16).2.2 (by decide)⟩

/-! ## BPF interpreter stepping lemmas (claims C1 and C2 support) -/

theorem bpfRun_step_ld {prog : List BpfInstr} {d : SeccompData}
    {fuel pc acc off : Nat} (hf : fuel ≠ 0)
    (hi : prog[pc]? = some (.ld off)) :
    bpfRun prog d fuel pc acc =
      bpfRun prog d (fuel - 1) (pc + 1) (loadWord d off) := by
  cases fuel with
  | zero => exact absurd rfl hf
  | succ f => simp [bpfRun, hi]

theorem bpfRun_step_jeq {prog : List BpfInstr} {d : SeccompData}
    {fuel pc acc k jt jf : Nat} (hf : fuel ≠ 0)
    (hi : prog[pc]? = some (.jeq k jt jf)) :
    bpfRun prog d fuel pc acc =
      bpfRun prog d (fuel - 1) (pc + 1 + (if acc = k then jt else jf)) acc := by
  cases fuel with
  | zero => exact absurd rfl hf
  | succ f => simp [bpfRun, hi]

theorem bpfRun_step_jgt {prog : List BpfInstr} {d : SeccompData}
    {fuel pc acc k jt jf : Nat} (hf : fuel ≠ 0)
    (hi : prog[pc]? = some (.jgt k jt jf)) :
    bpfRun prog d fuel pc acc =
      bpfRun prog d (fuel - 1) (pc + 1 + (if acc > k then jt else jf)) acc := by
  cases fuel with
  | zero => exact absurd rfl hf
  | succ f => simp [bpfRun, hi]

theorem bpfRun_step_jge {prog : List BpfInstr} {d : SeccompData}
    {fuel pc acc k jt jf : Nat} (hf : fuel ≠ 0)
    (hi : prog[pc]? = some (.jge k jt jf)) :
    bpfRun prog d fuel pc acc =
      bpfRun prog d (fuel - 1) (pc + 1 + (if acc ≥ k then jt else jf)) acc := by
  cases fuel with
  | zero => exact absurd rfl hf
  | succ f => simp [bpfRun, hi]

theorem bpfRun_step_ret {prog : List BpfInstr} {d : SeccompData}
    {fuel pc acc : Nat} {r : SRet} (hf : fuel ≠ 0)
    (hi : prog[pc]? = some (.ret r)) :
    bpfRun prog d fuel pc acc = some r := by
  cases fuel with
  | zero => exact absurd rfl hf
  | succ f => simp [bpfRun, hi]

/-- Running the per-syscall jump/trap chain from its first instruction with
the syscall number in the accumulator traps exactly on a denylisted
number. -/
theorem bpfRun_chainBody : ∀ (ns : List Nat) (pre : List BpfInstr)
    (d : SeccompData) (v fuel : Nat), 2 * ns.length + 1 ≤ fuel →
    bpfRun (pre ++ chainBody ns ++ [.ret .allow]) d fuel pre.length v =
      some (if v ∈ ns then .trap else .allow) := by
  intro ns
  induction ns with
  | nil =>
    intro pre d v fuel hf
    have hi : (pre ++ chainBody [] ++ [.ret .allow])[pre.length]? =
        some (BpfInstr.ret .allow) := by
      rw [List.append_assoc, List.getElem?_append_right (le_refl _)]
      simp [chainBody]
    rw [bpfRun_step_ret (by omega) hi]
    simp
  | cons n rest ih =>
    intro pre d v fuel hf
    simp only [List.length_cons] at hf
    have hsplit : pre ++ chainBody (n :: rest) ++ [.ret .allow] =
        (pre ++ [.jeq n 0 1, .ret .trap]) ++ chainBody rest ++
          [.ret .allow] := by
      simp [chainBody, List.flatMap_cons, List.append_assoc]
    have hi : (pre ++ chainBody (n :: rest) ++ [.ret .allow])[pre.length]? =
        some (BpfInstr.jeq n 0 1) := by
      rw [List.append_assoc, List.getElem?_append_right (le_refl _)]
      simp [chainBody, List.flatMap_cons]
    rw [bpfRun_step_jeq (by omega) hi]
    by_cases hv : v = n
    · rw [if_pos hv]
      have hi2 : (pre ++ chainBody (n :: rest) ++
          [.ret .allow])[pre.length + 1 + 0]? = some (BpfInstr.ret .trap) := by
        rw [List.append_assoc,
          List.getElem?_append_right (by omega : pre.length ≤ pre.length + 1 + 0)]
        simp [chainBody, List.flatMap_cons]
      rw [bpfRun_step_ret (by omega) hi2]
      simp [hv]
    · rw [if_neg hv]
      have hpc : pre.length + 1 + 1 =
          (pre ++ [BpfInstr.jeq n 0 1, BpfInstr.ret .trap]).length := by
        simp
      rw [hsplit, hpc]
      have happ := ih (pre ++ [BpfInstr.jeq n 0 1, BpfInstr.ret SRet.trap])
        d v (fuel - 1) (by omega)
      rw [happ]
      simp [hv]

/-- Running the denylist block (load of `nr` plus the chain) from its first
instruction traps exactly on a denylisted syscall number. -/
theorem bpfRun_denyChain (pre : List BpfInstr) (ns : List Nat)
    (d : SeccompData) (acc fuel : Nat) (hf : 2 * ns.length + 2 ≤ fuel) :
    bpfRun (pre ++ denyChain ns ++ [.ret .allow]) d fuel pre.length acc =
      some (if d.nr % 2 ^ 32 ∈ ns then .trap else .allow) := by
  have hi : (pre ++ denyChain ns ++ [.ret .allow])[pre.length]? =
      some (BpfInstr.ld 0) := by
    rw [List.append_assoc, List.getElem?_append_right (le_refl _)]
    simp [denyChain]
  rw [bpfRun_step_ld (by omega) hi]
  have hw : loadWord d 0 = d.nr % 2 ^ 32 := rfl
  rw [hw]
  have hsplit : pre ++ denyChain ns ++ [.ret .allow] =
      (pre ++ [.ld 0]) ++ chainBody ns ++ [.ret .allow] := by
    simp [denyChain, List.append_assoc]
  have hpc : pre.length + 1 = (pre ++ [BpfInstr.ld 0]).length := by simp
  rw [hsplit, hpc]
  exact bpfRun_chainBody ns (pre ++ [.ld 0]) d _ (fuel - 1) (by omega)

theorem filter32_length (wb we : Nat) : (filter32 wb we).length = 84 := rfl

theorem filter64_length (wb we : Nat) : (filter64 wb we).length = 63 := rfl

/-- Full characterization of the 32-bit filter on arch-matching data above
the low-address guard: an instruction pointer inside
`[PRELINKER_ADDR, LINKER_MAPS_LAST_ADDR)` is allowed outright; outside the
window the denylist decides. -/
theorem filter32_eval (wb we ip nr : Nat) (hip : ip < 2 ^ 32)
    (hnr : nr < 2 ^ 32) (hth : 0x400000 ≤ ip) :
    seccompEval (filter32 wb we) ⟨nr, AUDIT_ARCH_ARM, ip⟩ =
      some (if wb ≤ ip ∧ ip < we then .allow
        else if nr ∈ denylist32 then .trap else .allow) := by
  have hip8 : loadWord ⟨nr, AUDIT_ARCH_ARM, ip⟩ 8 = ip := by
    show ip % 2 ^ 32 = ip
    exact Nat.mod_eq_of_lt hip
  have hnrm : nr % 2 ^ 32 = nr := Nat.mod_eq_of_lt hnr
  unfold seccompEval
  rw [filter32_length]
  rw [bpfRun_step_ld (by omega) rfl]
  have harch : loadWord ⟨nr, AUDIT_ARCH_ARM, ip⟩ 4 = AUDIT_ARCH_ARM := by
    norm_num [loadWord, AUDIT_ARCH_ARM]
  rw [bpfRun_step_jeq (by omega) rfl, harch,
    if_pos (rfl : AUDIT_ARCH_ARM = AUDIT_ARCH_ARM)]
  rw [bpfRun_step_ld (by omega) rfl, hip8]
  rw [bpfRun_step_jge (by omega) rfl, if_pos hth]
  rw [bpfRun_step_ld (by omega) rfl, hip8]
  rw [bpfRun_step_jge (by omega) rfl]
  rcases Nat.lt_or_ge ip wb with hlt | hge
  · rw [if_neg (Nat.not_le.mpr hlt)]
    show bpfRun (head32 wb we ++ denyChain denylist32 ++ [.ret .allow])
      ⟨nr, AUDIT_ARCH_ARM, ip⟩ 79 (head32 wb we).length ip = _
    rw [bpfRun_denyChain (head32 wb we) denylist32 ⟨nr, AUDIT_ARCH_ARM, ip⟩
      ip 79 (by decide)]
    rw [if_neg (by omega : ¬(wb ≤ ip ∧ ip < we))]
    have hnrm2 : nr % 4294967296 = nr := Nat.mod_eq_of_lt (by omega)
    simp [hnrm, hnrm2]
  · rw [if_pos hge]
    rw [bpfRun_step_jge (by omega) rfl]
    rcases Nat.lt_or_ge ip we with hlt2 | hge2
    · rw [if_neg (Nat.not_le.mpr hlt2)]
      rw [bpfRun_step_ret (by omega) rfl]
      rw [if_pos ⟨hge, hlt2⟩]
    · rw [if_pos hge2]
      show bpfRun (head32 wb we ++ denyChain denylist32 ++ [.ret .allow])
        ⟨nr, AUDIT_ARCH_ARM, ip⟩ 78 (head32 wb we).length ip = _
      rw [bpfRun_denyChain (head32 wb we) denylist32 ⟨nr, AUDIT_ARCH_ARM, ip⟩
        ip 78 (by decide)]
      rw [if_neg (by omega : ¬(wb ≤ ip ∧ ip < we))]
      have hnrm2 : nr % 4294967296 = nr := Nat.mod_eq_of_lt (by omega)
      simp [hnrm, hnrm2]

/-- Running the 64-bit filter from the window-end comparison (instruction
13): allowed only when the high half equals the end's high half and the low
half is below the end's low half; every other outcome falls through to the
denylist block. -/
theorem filter64_endck (wb we ip nr : Nat) (acc fuel : Nat)
    (hf : 49 ≤ fuel) (hip : ip < 2 ^ 64) (hnr : nr < 2 ^ 32) :
    bpfRun (filter64 wb we) ⟨nr, AUDIT_ARCH_AARCH64, ip⟩ fuel 13 acc =
      some (if (if ip / 2 ^ 32 > we / 2 ^ 32 % 2 ^ 32 then false
          else if ip / 2 ^ 32 ≥ we / 2 ^ 32 % 2 ^ 32 then
            (if ip % 2 ^ 32 ≥ we % 2 ^ 32 then false else true)
          else false) then .allow
        else if nr ∈ denylist64 then .trap else .allow) := by
  have h64 : (2 : Nat) ^ 32 * 2 ^ 32 = 2 ^ 64 := by norm_num
  have hd32 : ip / 2 ^ 32 < 2 ^ 32 :=
    Nat.div_lt_of_lt_mul (h64 ▸ hip)
  have hhi : loadWord ⟨nr, AUDIT_ARCH_AARCH64, ip⟩ 12 = ip / 2 ^ 32 := by
    show ip / 2 ^ 32 % 2 ^ 32 = ip / 2 ^ 32
    exact Nat.mod_eq_of_lt hd32
  have hlo : loadWord ⟨nr, AUDIT_ARCH_AARCH64, ip⟩ 8 = ip % 2 ^ 32 := rfl
  have hnrm : nr % 2 ^ 32 = nr := Nat.mod_eq_of_lt hnr
  have hnrm2 : nr % 4294967296 = nr := Nat.mod_eq_of_lt (by omega)
  rw [bpfRun_step_ld (by omega) rfl, hhi]
  rw [bpfRun_step_jgt (by omega) rfl]
  by_cases h14 : ip / 2 ^ 32 > we / 2 ^ 32 % 2 ^ 32
  · rw [if_pos h14]
    show bpfRun (head64 wb we ++ denyChain denylist64 ++ [.ret .allow])
      ⟨nr, AUDIT_ARCH_AARCH64, ip⟩ (fuel - 1 - 1) ((head64 wb we).length)
      (ip / 2 ^ 32) = _
    rw [bpfRun_denyChain (head64 wb we) denylist64 _ _ _
      (by have hl : (2 : Nat) * denylist64.length + 2 = 44 := rfl; omega)]
    rw [if_pos h14]
    show some (if nr % 2 ^ 32 ∈ denylist64 then SRet.trap else SRet.allow) =
      some (if nr ∈ denylist64 then SRet.trap else SRet.allow)
    rw [hnrm]
  · rw [if_neg h14]
    rw [bpfRun_step_jge (by omega) rfl]
    by_cases h15 : ip / 2 ^ 32 ≥ we / 2 ^ 32 % 2 ^ 32
    · rw [if_pos h15]
      rw [bpfRun_step_ld (by omega) rfl, hlo]
      rw [bpfRun_step_jge (by omega) rfl]
      by_cases h17 : ip % 2 ^ 32 ≥ we % 2 ^ 32
      · rw [if_pos h17]
        show bpfRun (head64 wb we ++ denyChain denylist64 ++ [.ret .allow])
          ⟨nr, AUDIT_ARCH_AARCH64, ip⟩ (fuel - 1 - 1 - 1 - 1 - 1)
          ((head64 wb we).length) (ip % 2 ^ 32) = _
        rw [bpfRun_denyChain (head64 wb we) denylist64 _ _ _
          (by have hl : (2 : Nat) * denylist64.length + 2 = 44 := rfl; omega)]
        rw [if_neg h14, if_pos h15, if_pos h17]
        show some (if nr % 2 ^ 32 ∈ denylist64 then SRet.trap else SRet.allow) =
          some (if nr ∈ denylist64 then SRet.trap else SRet.allow)
        rw [hnrm]
      · rw [if_neg h17]
        rw [bpfRun_step_ret (by omega) rfl]
        rw [if_neg h14, if_pos h15, if_neg h17]
        rfl
    · rw [if_neg h15]
      show bpfRun (head64 wb we ++ denyChain denylist64 ++ [.ret .allow])
        ⟨nr, AUDIT_ARCH_AARCH64, ip⟩ (fuel - 1 - 1 - 1)
        ((head64 wb we).length) (ip / 2 ^ 32) = _
      rw [bpfRun_denyChain (head64 wb we) denylist64 _ _ _
        (by have hl : (2 : Nat) * denylist64.length + 2 = 44 := rfl; omega)]
      rw [if_neg h14, if_neg h15]
      show some (if nr % 2 ^ 32 ∈ denylist64 then SRet.trap else SRet.allow) =
        some (if nr ∈ denylist64 then SRet.trap else SRet.allow)
      rw [hnrm]

/-- Running the 64-bit filter from the window-begin comparison (instruction
8): the split comparison classifies the pointer per `splitRangeCk`; an
in-window pointer is allowed outright, any other pointer is judged by the
denylist. -/
theorem filter64_tail (wb we ip nr : Nat) (acc fuel : Nat)
    (hf : 54 ≤ fuel) (hip : ip < 2 ^ 64) (hnr : nr < 2 ^ 32) :
    bpfRun (filter64 wb we) ⟨nr, AUDIT_ARCH_AARCH64, ip⟩ fuel 8 acc =
      some (if splitRangeCk wb we ip then .allow
        else if nr ∈ denylist64 then .trap else .allow) := by
  have h64 : (2 : Nat) ^ 32 * 2 ^ 32 = 2 ^ 64 := by norm_num
  have hd32 : ip / 2 ^ 32 < 2 ^ 32 :=
    Nat.div_lt_of_lt_mul (h64 ▸ hip)
  have hmod : ip / 2 ^ 32 % 2 ^ 32 = ip / 2 ^ 32 := Nat.mod_eq_of_lt hd32
  have hhi : loadWord ⟨nr, AUDIT_ARCH_AARCH64, ip⟩ 12 = ip / 2 ^ 32 := hmod
  have hlo : loadWord ⟨nr, AUDIT_ARCH_AARCH64, ip⟩ 8 = ip % 2 ^ 32 := rfl
  have hnrm : nr % 2 ^ 32 = nr := Nat.mod_eq_of_lt hnr
  have hnrm2 : nr % 4294967296 = nr := Nat.mod_eq_of_lt (by omega)
  rw [bpfRun_step_ld (by omega) rfl, hhi]
  rw [bpfRun_step_jgt (by omega) rfl]
  by_cases h9 : ip / 2 ^ 32 > wb / 2 ^ 32 % 2 ^ 32
  · rw [if_pos h9]
    rw [filter64_endck wb we ip nr _ (fuel - 1 - 1) (by omega) hip hnr]
    have hs : splitRangeCk wb we ip =
        (if ip / 2 ^ 32 > we / 2 ^ 32 % 2 ^ 32 then false
         else if ip / 2 ^ 32 ≥ we / 2 ^ 32 % 2 ^ 32 then
           (if ip % 2 ^ 32 ≥ we % 2 ^ 32 then false else true)
         else false) := by
      simp only [splitRangeCk, hmod]
      rw [if_pos h9]
    rw [hs]
  · rw [if_neg h9]
    rw [bpfRun_step_jge (by omega) rfl]
    by_cases h10 : ip / 2 ^ 32 ≥ wb / 2 ^ 32 % 2 ^ 32
    · rw [if_pos h10]
      rw [bpfRun_step_ld (by omega) rfl, hlo]
      rw [bpfRun_step_jge (by omega) rfl]
      by_cases h12 : ip % 2 ^ 32 ≥ wb % 2 ^ 32
      · rw [if_pos h12]
        rw [filter64_endck wb we ip nr _ (fuel - 1 - 1 - 1 - 1 - 1)
          (by omega) hip hnr]
        have hs : splitRangeCk wb we ip =
            (if ip / 2 ^ 32 > we / 2 ^ 32 % 2 ^ 32 then false
             else if ip / 2 ^ 32 ≥ we / 2 ^ 32 % 2 ^ 32 then
               (if ip % 2 ^ 32 ≥ we % 2 ^ 32 then false else true)
             else false) := by
          simp only [splitRangeCk, hmod]
          rw [if_neg h9, if_pos h10, if_pos h12]
        rw [hs]
      · rw [if_neg h12]
        show bpfRun (head64 wb we ++ denyChain denylist64 ++ [.ret .allow])
          ⟨nr, AUDIT_ARCH_AARCH64, ip⟩ (fuel - 1 - 1 - 1 - 1 - 1)
          ((head64 wb we).length) (ip % 2 ^ 32) = _
        rw [bpfRun_denyChain (head64 wb we) denylist64 _ _ _
          (by have hl : (2 : Nat) * denylist64.length + 2 = 44 := rfl; omega)]
        have hs : splitRangeCk wb we ip = false := by
          simp only [splitRangeCk, hmod]
          rw [if_neg h9, if_pos h10, if_neg h12]
        rw [hs]
        show some (if nr % 2 ^ 32 ∈ denylist64 then SRet.trap else SRet.allow) =
          some (if nr ∈ denylist64 then SRet.trap else SRet.allow)
        rw [hnrm]
    · rw [if_neg h10]
      show bpfRun (head64 wb we ++ denyChain denylist64 ++ [.ret .allow])
        ⟨nr, AUDIT_ARCH_AARCH64, ip⟩ (fuel - 1 - 1 - 1)
        ((head64 wb we).length) (ip / 2 ^ 32) = _
      rw [bpfRun_denyChain (head64 wb we) denylist64 _ _ _
        (by have hl : (2 : Nat) * denylist64.length + 2 = 44 := rfl; omega)]
      have hs : splitRangeCk wb we ip = false := by
        simp only [splitRangeCk, hmod]
        rw [if_neg h9, if_neg h10]
      rw [hs]
      show some (if nr % 2 ^ 32 ∈ denylist64 then SRet.trap else SRet.allow) =
        some (if nr ∈ denylist64 then SRet.trap else SRet.allow)
      rw [hnrm]

/-- Full characterization of the 64-bit filter on arch-matching data above
the low-address guard: the split comparison (`splitRangeCk`) decides
between unconditional allow and the denylist. -/
theorem filter64_eval (wb we ip nr : Nat) (hip : ip < 2 ^ 64)
    (hnr : nr < 2 ^ 32) (hth : 0x500000 ≤ ip) :
    seccompEval (filter64 wb we) ⟨nr, AUDIT_ARCH_AARCH64, ip⟩ =
      some (if splitRangeCk wb we ip then .allow
        else if nr ∈ denylist64 then .trap else .allow) := by
  have h64 : (2 : Nat) ^ 32 * 2 ^ 32 = 2 ^ 64 := by norm_num
  have hd32 : ip / 2 ^ 32 < 2 ^ 32 :=
    Nat.div_lt_of_lt_mul (h64 ▸ hip)
  have hhi : loadWord ⟨nr, AUDIT_ARCH_AARCH64, ip⟩ 12 = ip / 2 ^ 32 :=
    Nat.mod_eq_of_lt hd32
  have harch : loadWord ⟨nr, AUDIT_ARCH_AARCH64, ip⟩ 4 = AUDIT_ARCH_AARCH64 := by
    norm_num [loadWord, AUDIT_ARCH_AARCH64]
  unfold seccompEval
  rw [filter64_length]
  rw [bpfRun_step_ld (by omega) rfl]
  rw [bpfRun_step_jeq (by omega) rfl, harch,
    if_pos (rfl : AUDIT_ARCH_AARCH64 = AUDIT_ARCH_AARCH64)]
  rw [bpfRun_step_ld (by omega) rfl, hhi]
  rw [bpfRun_step_jeq (by omega) rfl]
  by_cases h4 : ip / 2 ^ 32 = 0
  · rw [if_pos h4]
    have hlt32 : ip < 2 ^ 32 := (Nat.div_eq_zero_iff (by norm_num)).mp h4
    have hlo : loadWord ⟨nr, AUDIT_ARCH_AARCH64, ip⟩ 8 = ip :=
      Nat.mod_eq_of_lt hlt32
    rw [bpfRun_step_ld (by omega) rfl, hlo]
    rw [bpfRun_step_jge (by omega) rfl, if_pos hth]
    exact filter64_tail wb we ip nr ip (63 + 1 - 1 - 1 - 1 - 1 - 1 - 1)
      (by omega) hip hnr
  · rw [if_neg h4]
    exact filter64_tail wb we ip nr (ip / 2 ^ 32) (63 + 1 - 1 - 1 - 1 - 1)
      (by omega) hip hnr

/-- When the two window bounds share the same high 32-bit half (as in the
deployed fixed layout), the split comparison agrees with the direct
unsigned 64-bit range comparison. -/
theorem splitRangeCk_eq_direct (wb we ip : Nat) (hwb : wb < 2 ^ 64)
    (hwe : we < 2 ^ 64) (hip : ip < 2 ^ 64)
    (hhi : wb / 2 ^ 32 = we / 2 ^ 32) :
    splitRangeCk wb we ip = decide (wb ≤ ip ∧ ip < we) := by
  have e32 : (2 : Nat) ^ 32 = 4294967296 := by norm_num
  have e64 : (2 : Nat) ^ 64 = 4294967296 * 4294967296 := by norm_num
  rw [e32] at hhi
  rw [e64] at hwb hwe hip
  simp only [splitRangeCk, e32]
  have hipd : ip / 4294967296 % 4294967296 = ip / 4294967296 :=
    Nat.mod_eq_of_lt (by omega)
  simp only [hipd]
  by_cases h1 : ip / 4294967296 > wb / 4294967296 % 4294967296
  · rw [if_pos h1]
    by_cases h2 : ip / 4294967296 > we / 4294967296 % 4294967296
    · rw [if_pos h2]; symm; rw [decide_eq_false_iff_not]; omega
    · rw [if_neg h2]
      by_cases h3 : ip / 4294967296 ≥ we / 4294967296 % 4294967296
      · rw [if_pos h3]
        by_cases h4 : ip % 4294967296 ≥ we % 4294967296
        · rw [if_pos h4]; symm; rw [decide_eq_false_iff_not]; omega
        · rw [if_neg h4]; symm; rw [decide_eq_true_eq]; omega
      · rw [if_neg h3]; symm; rw [decide_eq_false_iff_not]; omega
  · rw [if_neg h1]
    by_cases h2 : ip / 4294967296 ≥ wb / 4294967296 % 4294967296
    · rw [if_pos h2]
      by_cases h3 : ip % 4294967296 ≥ wb % 4294967296
      · rw [if_pos h3]
        by_cases h4 : ip / 4294967296 > we / 4294967296 % 4294967296
        · rw [if_pos h4]; symm; rw [decide_eq_false_iff_not]; omega
        · rw [if_neg h4]
          by_cases h5 : ip / 4294967296 ≥ we / 4294967296 % 4294967296
          · rw [if_pos h5]
            by_cases h6 : ip % 4294967296 ≥ we % 4294967296
            · rw [if_pos h6]; symm; rw [decide_eq_false_iff_not]; omega
            · rw [if_neg h6]; symm; rw [decide_eq_true_eq]; omega
          · rw [if_neg h5]; symm; rw [decide_eq_false_iff_not]; omega
      · rw [if_neg h3]; symm; rw [decide_eq_false_iff_not]; omega
    · rw [if_neg h2]; symm; rw [decide_eq_false_iff_not]; omega

/-- C1 counterexample: with the default 32-bit window
`[0xbc9e0000, 0xbcd90000)`, an instruction pointer inside the window
issuing the denylisted `openat` is ALLOWED (the claim says TRAP), and one
outside the window issuing `openat` is TRAPPED (the claim says ALLOW): the
filter's polarity is the inverse of the claim's. -/
theorem sandbox_decision_counterexample :
    ((0xbc9e0000 : Nat) ≤ 0xbc9e0010 ∧ (0xbc9e0010 : Nat) < 0xbcd90000) ∧
    NRarm_openat ∈ denylist32 ∧
    seccompEval (filter32 0xbc9e0000 0xbcd90000)
      ⟨NRarm_openat, AUDIT_ARCH_ARM, 0xbc9e0010⟩ = some .allow ∧
    ¬((0xbcd90010 : Nat) < 0xbcd90000) ∧
    seccompEval (filter32 0xbc9e0000 0xbcd90000)
      ⟨NRarm_openat, AUDIT_ARCH_ARM, 0xbcd90010⟩ = some .trap := by
  refine ⟨by decide, by decide, by decide, by decide, by decide⟩

/-- C1 (amended: the polarity is the inverse of the claim — the protected
window is a whitelist): for either build, on arch-matching data at or above
the low-address threshold, an instruction pointer inside
`[PRELINKER_ADDR, LINKER_MAPS_LAST_ADDR)` makes the filter return ALLOW
regardless of the syscall number, while a pointer outside the window
returns TRAP exactly on the build's denylist and ALLOW otherwise.  For the
64-bit build the window bounds are assumed to share their high 32-bit half
(the deployed layout), under which the split comparison coincides with the
direct one. -/
theorem sandbox_decision_spec (wb we ip nr : Nat) :
    (ip < 2 ^ 32 → nr < 2 ^ 32 → 0x400000 ≤ ip →
      (wb ≤ ip ∧ ip < we →
        seccompEval (filter32 wb we) ⟨nr, AUDIT_ARCH_ARM, ip⟩ =
          some .allow) ∧
      (¬(wb ≤ ip ∧ ip < we) →
        seccompEval (filter32 wb we) ⟨nr, AUDIT_ARCH_ARM, ip⟩ =
          some (if nr ∈ denylist32 then .trap else .allow))) ∧
    (wb < 2 ^ 64 → we < 2 ^ 64 → ip < 2 ^ 64 → nr < 2 ^ 32 →
      wb / 2 ^ 32 = we / 2 ^ 32 → 0x500000 ≤ ip →
      (wb ≤ ip ∧ ip < we →
        seccompEval (filter64 wb we) ⟨nr, AUDIT_ARCH_AARCH64, ip⟩ =
          some .allow) ∧
      (¬(wb ≤ ip ∧ ip < we) →
        seccompEval (filter64 wb we) ⟨nr, AUDIT_ARCH_AARCH64, ip⟩ =
          some (if nr ∈ denylist64 then .trap else .allow))) := by
  constructor
  · intro hip hnr hth
    constructor
    · intro hin
      rw [filter32_eval wb we ip nr hip hnr hth, if_pos hin]
    · intro hout
      rw [filter32_eval wb we ip nr hip hnr hth, if_neg hout]
  · intro hwb hwe hip hnr hhi hth
    have hs := splitRangeCk_eq_direct wb we ip hwb hwe hip hhi
    constructor
    · intro hin
      rw [filter64_eval wb we ip nr hip hnr hth, hs]
      simp [hin]
    · intro hout
      rw [filter64_eval wb we ip nr hip hnr hth, hs]
      simp [hout]

/-- C1 witness: concrete decisions on both builds through the amended
theorem. -/
theorem sandbox_decision_spec_witness :
    seccompEval (filter32 0xbc9e0000 0xbcd90000)
      ⟨NRarm_openat, AUDIT_ARCH_ARM, 0xbc9e0010⟩ = some .allow ∧
    seccompEval (filter64 0x782EEF0000 0x782F100000)
      ⟨NRa64_openat, AUDIT_ARCH_AARCH64, 0x782F100010⟩ =
      some (if NRa64_openat ∈ denylist64 then .trap else .allow) := by
  constructor
  · exact ((sandbox_decision_spec 0xbc9e0000 0xbcd90000 0xbc9e0010
      NRarm_openat).1 (by decide) (by decide) (by decide)).1 (by decide)
  · exact ((sandbox_decision_spec 0x782EEF0000 0x782F100000 0x782F100010
      NRa64_openat).2 (by decide) (by decide) (by decide) (by decide)
      (by decide) (by decide)).2 (by decide)

/-- C2 counterexample: for a window straddling a 4 GiB boundary
(`[2^32, 2^33)`), the pointer `2^32 + 16` is inside by the direct unsigned
64-bit comparison, yet the split comparison classifies it as out-of-window
(`splitRangeCk` is false and the filter subjects it to the denylist,
trapping `openat` where an in-window pointer would be allowed). -/
theorem split_compare_counterexample :
    ((2 ^ 32 : Nat) ≤ 2 ^ 32 + 16 ∧ (2 ^ 32 + 16 : Nat) < 2 ^ 33) ∧
    splitRangeCk (2 ^ 32) (2 ^ 33) (2 ^ 32 + 16) = false ∧
    seccompEval (filter64 (2 ^ 32) (2 ^ 33))
      ⟨NRa64_openat, AUDIT_ARCH_AARCH64, 2 ^ 32 + 16⟩ = some .trap := by
  refine ⟨by decide, by decide, by decide⟩

/-- C2 (amended: the equivalence holds provided the two window bounds share
the same high 32-bit half, as the deployed fixed layout does; a window
straddling a 4 GiB boundary is misclassified): under that hypothesis the
split high/low comparison classifies every 64-bit instruction pointer
exactly as the direct unsigned comparison, and the filter's observable
decision on a denylisted probe syscall matches the direct window test. -/
theorem split_compare_spec (wb we ip : Nat) (hwb : wb < 2 ^ 64)
    (hwe : we < 2 ^ 64) (hip : ip < 2 ^ 64)
    (hhi : wb / 2 ^ 32 = we / 2 ^ 32) (hth : 0x500000 ≤ ip) :
    splitRangeCk wb we ip = decide (wb ≤ ip ∧ ip < we) ∧
    seccompEval (filter64 wb we) ⟨NRa64_openat, AUDIT_ARCH_AARCH64, ip⟩ =
      some (if wb ≤ ip ∧ ip < we then .allow else .trap) := by
  have hs := splitRangeCk_eq_direct wb we ip hwb hwe hip hhi
  refine ⟨hs, ?_⟩
  rw [filter64_eval wb we ip NRa64_openat hip (by decide) hth, hs]
  by_cases hin : wb ≤ ip ∧ ip < we
  · simp [hin]
  · simp [hin]
    decide

/-- C2 witness: the split comparison and the filter decision at concrete
inside and outside pointers of the deployed 64-bit window. -/
theorem split_compare_spec_witness :
    (splitRangeCk 0x782EEF0000 0x782F100000 0x782EEF0010 =
      decide ((0x782EEF0000 : Nat) ≤ 0x782EEF0010 ∧
        (0x782EEF0010 : Nat) < 0x782F100000)) ∧
    seccompEval (filter64 0x782EEF0000 0x782F100000)
      ⟨NRa64_openat, AUDIT_ARCH_AARCH64, 0x782EEF0010⟩ = some .allow := by
  have h := split_compare_spec 0x782EEF0000 0x782F100000 0x782EEF0010
    (by decide) (by decide) (by decide) (by decide) (by decide)
  refine ⟨h.1, ?_⟩
  rw [h.2]
  decide

/-! ## Relro scan lemmas (claim C8 support) -/

theorem skipMismatch_le (peq : Nat → Bool) (off size : Nat)
    (h : off ≤ size) : skipMismatch peq off size ≤ size := by
  rw [skipMismatch]
  by_cases hc : off < size ∧ peq off = false
  · rw [if_pos hc]
    exact skipMismatch_le peq (off + 1) size (by omega)
  · rw [if_neg hc]
    exact h
  termination_by size - off

theorem skipMismatch_false (peq : Nat → Bool) (off size t : Nat)
    (h1 : off ≤ t) (h2 : t < skipMismatch peq off size) : peq t = false := by
  rw [skipMismatch] at h2
  by_cases hc : off < size ∧ peq off = false
  · rw [if_pos hc] at h2
    rcases Nat.eq_or_lt_of_le h1 with rfl | hlt
    · exact hc.2
    · exact skipMismatch_false peq (off + 1) size t hlt h2
  · rw [if_neg hc] at h2
    omega
  termination_by size - off

theorem countMatch_le (peq : Nat → Bool) (off size : Nat)
    (h : off ≤ size) : countMatch peq off size ≤ size := by
  rw [countMatch]
  by_cases hc : off < size ∧ peq off = true
  · rw [if_pos hc]
    exact countMatch_le peq (off + 1) size (by omega)
  · rw [if_neg hc]
    exact h
  termination_by size - off

theorem countMatch_true (peq : Nat → Bool) (off size t : Nat)
    (h1 : off ≤ t) (h2 : t < countMatch peq off size) : peq t = true := by
  rw [countMatch] at h2
  by_cases hc : off < size ∧ peq off = true
  · rw [if_pos hc] at h2
    rcases Nat.eq_or_lt_of_le h1 with rfl | hlt
    · exact hc.2
    · exact countMatch_true peq (off + 1) size t hlt h2
  · rw [if_neg hc] at h2
    omega
  termination_by size - off

theorem scanRegion_runs (peq : Nat → Bool) (off size : Nat) :
    ∀ r ∈ scanRegion peq off size,
      off ≤ r.1 ∧ r.1 + r.2 ≤ size ∧ 0 < r.2 := by
  intro r hr
  rw [scanRegion] at hr
  by_cases h : off < size
  · rw [dif_pos h] at hr
    simp only [List.mem_append] at hr
    rcases hr with hr1 | hr2
    · by_cases hme : skipMismatch peq off size <
          countMatch peq (skipMismatch peq off size) size
      · rw [if_pos hme] at hr1
        have hreq := List.mem_singleton.mp hr1
        subst hreq
        refine ⟨le_skipMismatch peq off size, ?_, by omega⟩
        have h1 : skipMismatch peq off size ≤ size :=
          skipMismatch_le peq off size (Nat.le_of_lt h)
        have h2 : countMatch peq (skipMismatch peq off size) size ≤ size :=
          countMatch_le peq _ size h1
        simp only []
        omega
      · rw [if_neg hme] at hr1
        exact absurd hr1 (List.not_mem_nil r)
    · have hrest := scanRegion_runs peq
        (countMatch peq (skipMismatch peq off size) size) size r hr2
      exact ⟨le_trans (le_trans (le_skipMismatch peq off size)
        (le_countMatch peq _ size)) hrest.1, hrest.2⟩
  · rw [dif_neg h] at hr
    exact absurd hr (List.not_mem_nil r)
  termination_by size - off
  decreasing_by
    exact Nat.sub_lt_sub_left h (lt_countMatch_skipMismatch peq off size h)

theorem scanRegion_cover (peq : Nat → Bool) (off size k : Nat)
    (h1 : off ≤ k) (h2 : k < size) :
    coveredRun (scanRegion peq off size) k = peq k := by
  have hos : off < size := Nat.lt_of_le_of_lt h1 h2
  rw [scanRegion, dif_pos hos]
  rcases Nat.lt_or_ge k (skipMismatch peq off size) with hkm | hkm
  · have hpf : peq k = false := skipMismatch_false peq off size k h1 hkm
    rw [hpf, coveredRun]
    apply List.any_eq_false.mpr
    intro r hr
    simp only [List.mem_append] at hr
    rcases hr with hr1 | hr2
    · by_cases hme : skipMismatch peq off size <
          countMatch peq (skipMismatch peq off size) size
      · rw [if_pos hme] at hr1
        have hreq := List.mem_singleton.mp hr1
        subst hreq
        simp only [Bool.and_eq_true, decide_eq_true_eq, not_and]
        omega
      · rw [if_neg hme] at hr1
        exact absurd hr1 (List.not_mem_nil r)
    · have hrest := scanRegion_runs peq
        (countMatch peq (skipMismatch peq off size) size) size r hr2
      have hmc : skipMismatch peq off size ≤
          countMatch peq (skipMismatch peq off size) size :=
        le_countMatch peq _ size
      simp only [Bool.and_eq_true, decide_eq_true_eq, not_and]
      omega
  · rcases Nat.lt_or_ge k (countMatch peq (skipMismatch peq off size) size)
      with hke | hke
    · have hpt : peq k = true := countMatch_true peq _ size k hkm hke
      rw [hpt, coveredRun]
      apply List.any_eq_true.mpr
      refine ⟨(skipMismatch peq off size,
        countMatch peq (skipMismatch peq off size) size -
          skipMismatch peq off size), ?_, ?_⟩
      · apply List.mem_append.mpr
        left
        rw [if_pos (by omega : skipMismatch peq off size <
          countMatch peq (skipMismatch peq off size) size)]
        exact List.mem_singleton.mpr rfl
      · simp only [Bool.and_eq_true, decide_eq_true_eq]
        omega
    · have hrec := scanRegion_cover peq
        (countMatch peq (skipMismatch peq off size) size) size k hke h2
      rw [coveredRun, List.any_append]
      rw [coveredRun] at hrec
      rw [hrec]
      have hhead : (if skipMismatch peq off size <
          countMatch peq (skipMismatch peq off size) size then
            [(skipMismatch peq off size,
              countMatch peq (skipMismatch peq off size) size -
                skipMismatch peq off size)]
          else ([] : List (Nat × Nat))).any
          (fun r => decide (r.1 ≤ k) && decide (k < r.1 + r.2)) = false := by
        by_cases hme : skipMismatch peq off size <
            countMatch peq (skipMismatch peq off size) size
        · rw [if_pos hme]
          have hnk : ¬(k < skipMismatch peq off size +
              (countMatch peq (skipMismatch peq off size) size -
                skipMismatch peq off size)) := by omega
          simp [hnk]
        · rw [if_neg hme]
          rfl
      rw [hhead]
      simp
  termination_by size - off
  decreasing_by
    exact Nat.sub_lt_sub_left hos (lt_countMatch_skipMismatch peq off size hos)

/-- C8: the relro replay is a single linear scan per region in runs of
pages: a page of a processed region is covered by a remap run exactly when
its live contents equal the corresponding file page (dissimilar pages are
left untouched); the runs are in-bounds, non-empty and in order; a region
that does not fit in the rest of the serialized file stops the loop for it
and every later region; and the call still returns 0 (success). -/
theorem map_shared_relro_spec (memPage filePage : Nat → Nat)
    (tbl : List Phdr) (bias fileSize : Nat) :
    (phdr_table_map_gnu_relro memPage filePage tbl bias fileSize).2 = 0 ∧
    (∀ regs fo mstart size, fileSize - fo < size →
      mapRelroLoop memPage filePage fileSize ((mstart, size) :: regs) fo =
        []) ∧
    (∀ fo mstart size k, k < size / PAGE_SIZE →
      coveredRun
        (scanRegion (fun j => memPage (mstart + PAGE_SIZE * j) ==
          filePage (fo + PAGE_SIZE * j)) 0 (size / PAGE_SIZE)) k =
        (memPage (mstart + PAGE_SIZE * k) ==
          filePage (fo + PAGE_SIZE * k))) ∧
    (∀ peq off size, ∀ r ∈ scanRegion peq off size,
      off ≤ r.1 ∧ r.1 + r.2 ≤ size ∧ 0 < r.2) := by
  refine ⟨rfl, ?_, ?_, ?_⟩
  · intro regs fo mstart size h
    simp [mapRelroLoop, h]
  · intro fo mstart size k hk
    exact scanRegion_cover _ 0 _ k (Nat.zero_le k) hk
  · intro peq off size
    exact scanRegion_runs peq off size

/-- C8 witness: success return code, the early stop on a short file, and
the page-coverage characterization instantiated at one page of a
two-page region with equal page contents. -/
theorem map_shared_relro_spec_witness :
    (phdr_table_map_gnu_relro (fun a => a + 7) (fun b => b + 7)
      [Phdr.mk PT_GNU_RELRO 0 0 0x2000 0x2000 PF_R] 0 0x2000).2 = 0 ∧
    mapRelroLoop (fun a => a + 7) (fun b => b + 7) 0x1000 [(0, 0x2000)] 0 =
      [] ∧
    coveredRun
      (scanRegion (fun j => (0 + PAGE_SIZE * j + 7 : Nat) ==
        (0 + PAGE_SIZE * j + 7 : Nat)) 0 (0x2000 / PAGE_SIZE)) 1 =
      ((0 + PAGE_SIZE * 1 + 7 : Nat) == (0 + PAGE_SIZE * 1 + 7 : Nat)) := by
  refine ⟨(map_shared_relro_spec (fun a => a + 7) (fun b => b + 7)
      [Phdr.mk PT_GNU_RELRO 0 0 0x2000 0x2000 PF_R] 0 0x2000).1, ?_, ?_⟩
  · exact (map_shared_relro_spec (fun a => a + 7) (fun b => b + 7)
      [] 0 0x1000).2.1 [] 0 0 0x2000 (by decide)
  · exact (map_shared_relro_spec (fun a => a + 7) (fun b => b + 7)
      [] 0 0x2000).2.2.1 0 0 0x2000 1 (by decide)

end LinkerPhdr
